import Mathlib

/-!
Verification of the validation core of `helpers/validate.py`
(citation span resolution, question deduplication, batch validation).

Strings are modelled at the level of Python `str`: a `List Char` of code
points.  Python's `re.sub(r'\s+', ' ', s)`, `s.strip()`, `s.find()`,
`s.split()`, `s.lower()` and `difflib.SequenceMatcher` are embedded as
executable Lean functions below.  Floats are modelled as exact rationals
(`ℚ`); `difflib`'s ratio `2*M/T` is a ratio of integers, so every value
produced by the code is an exact rational and comparisons with the
thresholds are faithfully reproduced.
-/

/-- Python whitespace (`str.isspace` / regex `\s`) restricted to its ASCII
part: space, tab, newline, carriage return, vertical tab, form feed. -/
def isPySpace (c : Char) : Bool :=
  c = ' ' ∨ c = '\t' ∨ c = '\n' ∨ c = '\r' ∨ c = '\x0b' ∨ c = '\x0c'

/-- `needle` occurs in `hay` starting at position `m`. -/
def matchesAt (hay needle : List Char) (m : Nat) : Bool :=
  decide ((hay.drop m).take needle.length = needle)

/-- Python `hay.find(needle)`: smallest index at which `needle` occurs as a
literal substring, `none` when absent (Python returns `-1`).
`pyFind hay "" = some 0`, as in Python. -/
def pyFind (hay needle : List Char) : Option Nat :=
  (List.range (hay.length + 1)).find? (fun m => matchesAt hay needle m)

/-- One pass of whitespace-run collapsing: `prevSpace` records whether the
previously consumed character was whitespace.  The first character of every
maximal whitespace run is emitted as `' '`; the following characters of the
run are dropped.  `collapseAux false` is exactly Python's
`re.sub(r'\s+', ' ', s)`. -/
def collapseAux : Bool → List Char → List Char
  | _, [] => []
  | prevSpace, c :: rest =>
    if isPySpace c then
      (if prevSpace then collapseAux true rest else ' ' :: collapseAux true rest)
    else c :: collapseAux false rest

/-- Python `re.sub(r'\s+', ' ', s)`: collapse every maximal whitespace run
to a single space. -/
def collapseWS (s : List Char) : List Char := collapseAux false s

/-- Python `s.strip()`: remove leading and trailing whitespace. -/
def pyStrip (s : List Char) : List Char :=
  ((s.dropWhile isPySpace).reverse.dropWhile isPySpace).reverse

/-- The collapsing state left by consuming a prefix: whether the last
consumed character was whitespace (`b` when nothing was consumed). -/
def stateAfter (b : Bool) : List Char → Bool
  | [] => b
  | c :: rest => stateAfter (isPySpace c) rest

/-- Right strip: remove trailing whitespace only. -/
def stripR (s : List Char) : List Char :=
  (s.reverse.dropWhile isPySpace).reverse

/-- The back-mapping walk of `compute_span` (`validate.py` lines 48-66):
walks the original source, tracking the normalized position `np`; a
whitespace character is skipped without advancing `np` when the previously
emitted normalized character was already a space
(`norm_pos > 0 and normalized_source[norm_pos-1] == ' '`).  Records
`orig_start` at the first unskipped character where `np = idx` and breaks
with `orig_end` at the character where `np = stop = idx + |nc|`.
Returns `(orig_start, orig_end, final_i)`. -/
def spanWalk (ns : List Char) (idx stop : Nat) :
    List Char → Nat → Nat → Option Nat → Option Nat × Option Nat × Nat
  | [], i, _, os => (os, none, i)
  | c :: rest, i, np, os =>
    if isPySpace c ∧ 0 < np ∧ ns.getD (np - 1) 'x' = ' ' then
      spanWalk ns idx stop rest (i + 1) np os
    else
      let os' := if np = idx ∧ os = none then some i else os
      if np = stop then (os', some i, i)
      else spanWalk ns idx stop rest (i + 1) (np + 1) os'

/-- `compute_span(citation, source_content)` from `validate.py`: exact
`find` first; on failure, search the whitespace-normalized citation inside
the whitespace-normalized source and map the match back to original
offsets with `spanWalk`.  Returns `(found, start_index, end_index)` with
the `-1` sentinels of the Python code. -/
def compute_span (citation source_content : List Char) : Bool × Int × Int :=
  if citation = [] ∨ source_content = [] then (false, -1, -1)
  else
    match pyFind source_content citation with
    | some idx => (true, (idx : Int), (idx : Int) + citation.length)
    | none =>
      let normalized_citation := collapseWS (pyStrip citation)
      let normalized_source := collapseWS source_content
      match pyFind normalized_source normalized_citation with
      | none => (false, -1, -1)
      | some idx =>
        let w := spanWalk normalized_source idx (idx + normalized_citation.length)
                   source_content 0 0 none
        let origStart := w.1
        let origEnd := match origStart, w.2.1 with
          | some _, none => some w.2.2
          | _, oe => oe
        match origStart, origEnd with
        | some s, some e => (true, (s : Int), (e : Int))
        | _, _ => (false, -1, -1)

/-! ### `difflib.SequenceMatcher` (as used by `fuzzy_match`)

`fuzzy_match` constructs `SequenceMatcher(None, t1, t2)` and calls
`.ratio()`.  With `isjunk=None` the junk set `bjunk` is empty; the
`autojunk` heuristic drops "popular" elements from `b2j` when
`len(b) >= 200`.  floats are replaced by exact rationals. -/

/-- `str.lower()` on one character. -/
def pyLower (c : Char) : Char := c.toLower

/-- Helper of `pySplit`: accumulates the current word (reversed). -/
def pySplitAux : List Char → List Char → List (List Char)
  | [], acc => if acc = [] then [] else [acc.reverse]
  | c :: rest, acc =>
    if isPySpace c then
      (if acc = [] then pySplitAux rest [] else acc.reverse :: pySplitAux rest [])
    else pySplitAux rest (c :: acc)

/-- Python `s.split()`: split on whitespace runs, dropping empty words. -/
def pySplit (s : List Char) : List (List Char) := pySplitAux s []

/-- `' '.join(text.lower().split())` — the normalization of `fuzzy_match`. -/
def pyNormalize (text : List Char) : List Char :=
  List.intercalate [' '] (pySplit (text.map pyLower))

/-- All indices `j` with `b[j] = c`, in increasing order (`__chain_b`'s
`b2j` before the autojunk purge). -/
def b2jFull (b : List Char) (c : Char) : List Nat :=
  (List.range b.length).filter (fun j => b.getD j 'x' = c)

/-- `__chain_b`'s `b2j` after the autojunk purge: when `len(b) >= 200`,
characters occurring more than `len(b) // 100 + 1` times are "popular" and
removed from the map (lookups then yield `[]`). -/
def b2j (b : List Char) (c : Char) : List Nat :=
  let idxs := b2jFull b c
  if 200 ≤ b.length ∧ b.length / 100 + 1 < idxs.length then [] else idxs

/-- `self.bjunk.__contains__`: with `isjunk=None` the junk set is empty. -/
def isbjunk (_ : Char) : Bool := false

/-- Inner loop of `find_longest_match` over `b2j.get(a[i], [])` for one row
`i`: skips `j < blo` (`continue`), stops at `j >= bhi` (`break`; the index
list is increasing), writes `newj2len[j] = j2len.get(j-1, 0) + 1` and
updates the best block on strictly greater size.  `j2len` maps Int keys to
sizes, absent keys to `0` (so `j2len.get(-1, 0) = 0` is faithful).
Python's `besti, bestj = i-k+1, j-k+1` are non-negative because a chain
ending at row `i` has length at most `i - alo + 1` (`flmRow_inv` below),
so the truncated `i + 1 - k` coincides with them. -/
def flmRow (blo bhi i : Nat) (j2len : Int → Nat) :
    List Nat → (Int → Nat) → Nat × Nat × Nat → (Int → Nat) × Nat × Nat × Nat
  | [], newj2len, best => (newj2len, best)
  | j :: js, newj2len, best =>
    if j < blo then flmRow blo bhi i j2len js newj2len best
    else if bhi ≤ j then (newj2len, best)
    else
      let k := j2len ((j : Int) - 1) + 1
      let newj2len' := Function.update newj2len (j : Int) k
      let best' := if best.2.2 < k then (i + 1 - k, j + 1 - k, k) else best
      flmRow blo bhi i j2len js newj2len' best'

/-- Outer loop of `find_longest_match` over `i in range(alo, ahi)`; each
row starts a fresh `newj2len = {}` (the all-zero map). -/
def flmRows (a b : List Char) (blo bhi : Nat) :
    List Nat → (Int → Nat) → Nat × Nat × Nat → (Int → Nat) × Nat × Nat × Nat
  | [], j2len, best => (j2len, best)
  | i :: is, j2len, best =>
    let p := flmRow blo bhi i j2len (b2j b (a.getD i 'x')) (fun _ => 0) best
    flmRows a b blo bhi is p.1 p.2

/-- First extension loop: extend the best block backwards over non-junk
matching characters.  The loop decrements `besti` while `besti > alo`, so
it is structural recursion on `besti` (when `besti = 0` the condition
`besti > alo ≥ 0` is false and the loop exits, as in the base case). -/
def extendBack (a b : List Char) (alo blo : Nat) : Nat → Nat → Nat → Nat × Nat × Nat
  | 0, bestj, bestsize => (0, bestj, bestsize)
  | besti + 1, bestj, bestsize =>
    if alo < besti + 1 ∧ blo < bestj ∧ isbjunk (b.getD (bestj - 1) 'x') = false ∧
        a.getD besti 'x' = b.getD (bestj - 1) 'x' then
      extendBack a b alo blo besti (bestj - 1) (bestsize + 1)
    else (besti + 1, bestj, bestsize)

/-- Loop body of the second extension loop, structurally recursive on the
gas `ahi - (besti + bestsize)`, which is exactly the maximal number of
iterations left (`bestsize` grows by 1 while `besti + bestsize < ahi`, so
the gas mirrors the loop condition: gas `0` iff the condition fails). -/
def extendFwdGo (a b : List Char) (ahi bhi besti bestj : Nat) : Nat → Nat → Nat
  | 0, bestsize => bestsize
  | gas + 1, bestsize =>
    if besti + bestsize < ahi ∧ bestj + bestsize < bhi ∧
        isbjunk (b.getD (bestj + bestsize) 'x') = false ∧
        a.getD (besti + bestsize) 'x' = b.getD (bestj + bestsize) 'x' then
      extendFwdGo a b ahi bhi besti bestj gas (bestsize + 1)
    else bestsize

/-- Second extension loop: extend the best block forwards over non-junk
matching characters. -/
def extendFwd (a b : List Char) (ahi bhi besti bestj : Nat) (bestsize : Nat) : Nat :=
  extendFwdGo a b ahi bhi besti bestj (ahi - (besti + bestsize)) bestsize

/-- Third extension loop (junk, backwards); with `isjunk=None` the
condition `isbjunk(...)` is always false, so it never fires. -/
def extendBackJunk (a b : List Char) (alo blo : Nat) : Nat → Nat → Nat → Nat × Nat × Nat
  | 0, bestj, bestsize => (0, bestj, bestsize)
  | besti + 1, bestj, bestsize =>
    if alo < besti + 1 ∧ blo < bestj ∧ isbjunk (b.getD (bestj - 1) 'x') = true ∧
        a.getD besti 'x' = b.getD (bestj - 1) 'x' then
      extendBackJunk a b alo blo besti (bestj - 1) (bestsize + 1)
    else (besti + 1, bestj, bestsize)

/-- Loop body of the fourth extension loop (junk, forwards); never fires
for `isjunk=None`. -/
def extendFwdJunkGo (a b : List Char) (ahi bhi besti bestj : Nat) : Nat → Nat → Nat
  | 0, bestsize => bestsize
  | gas + 1, bestsize =>
    if besti + bestsize < ahi ∧ bestj + bestsize < bhi ∧
        isbjunk (b.getD (bestj + bestsize) 'x') = true ∧
        a.getD (besti + bestsize) 'x' = b.getD (bestj + bestsize) 'x' then
      extendFwdJunkGo a b ahi bhi besti bestj gas (bestsize + 1)
    else bestsize

/-- Fourth extension loop (junk, forwards); never fires for `isjunk=None`. -/
def extendFwdJunk (a b : List Char) (ahi bhi besti bestj : Nat) (bestsize : Nat) : Nat :=
  extendFwdJunkGo a b ahi bhi besti bestj (ahi - (besti + bestsize)) bestsize

/-- `SequenceMatcher.find_longest_match(alo, ahi, blo, bhi)`: the DP over
rows followed by the four extension loops. -/
def find_longest_match (a b : List Char) (alo ahi blo bhi : Nat) : Nat × Nat × Nat :=
  let p := flmRows a b blo bhi (List.range' alo (ahi - alo)) (fun _ => 0) (alo, blo, 0)
  let e1 := extendBack a b alo blo p.2.1 p.2.2.1 p.2.2.2
  let k1 := extendFwd a b ahi bhi e1.1 e1.2.1 e1.2.2
  let e2 := extendBackJunk a b alo blo e1.1 e1.2.1 k1
  let k2 := extendFwdJunk a b ahi bhi e2.1 e2.2.1 e2.2.2
  (e2.1, e2.2.1, k2)

/-- Invariant for the `j2len` maps: every stored chain length is at most
`m` (the number of processed rows) and fits between `blo` and `bhi`. -/
def j2lenOK (blo bhi m : Nat) (f : Int → Nat) : Prop :=
  ∀ jz : Int, f jz = 0 ∨
    ((blo : Int) ≤ jz ∧ jz < (bhi : Int) ∧ f jz ≤ m ∧ (f jz : Int) ≤ jz + 1 - blo)

/-- Invariant for the running best block: either still the initial
`(alo, blo, 0)`, or a genuine block within the region ending before `hi`. -/
def bestOK (alo blo bhi hi : Nat) (best : Nat × Nat × Nat) : Prop :=
  best = (alo, blo, 0) ∨
    (1 ≤ best.2.2 ∧ alo ≤ best.1 ∧ best.1 + best.2.2 ≤ hi ∧
      blo ≤ best.2.1 ∧ best.2.1 + best.2.2 ≤ bhi)

/-- Total number of matched characters over `get_matching_blocks`: the
queue in `get_matching_blocks` explores exactly the two sub-regions on
each side of a non-empty longest match; sorting the blocks and merging
adjacent ones preserve the total size, and the `(la, lb, 0)` sentinel adds
nothing, so `sum(triple[-1] ...)` in `ratio` equals this recursion.  The
fuel argument bounds the recursion depth; each sub-region is strictly
smaller than `ahi - alo` (`find_longest_match_bounds`), so the initial
fuel `ahi - alo` is never exhausted (`matchSumGo_fuel` below). -/
def matchSumGo (a b : List Char) : Nat → Nat → Nat → Nat → Nat → Nat
  | 0, _, _, _, _ => 0
  | fuel + 1, alo, ahi, blo, bhi =>
    match find_longest_match a b alo ahi blo bhi with
    | (i, j, k) =>
      if k = 0 then 0
      else
        k + (if alo < i ∧ blo < j then matchSumGo a b fuel alo i blo j else 0) +
          (if i + k < ahi ∧ j + k < bhi then matchSumGo a b fuel (i + k) ahi (j + k) bhi
            else 0)

/-- The total matched-character count of `get_matching_blocks`. -/
def matchSum (a b : List Char) (alo ahi blo bhi : Nat) : Nat :=
  matchSumGo a b (ahi - alo) alo ahi blo bhi

/-- `difflib._calculate_ratio`: `2*M/T`, and `1.0` when `T = 0`.  Written
with `Rat.divInt`, which for these arguments is exactly the rational
`2*M/T` (`calculateRatio_eq_div` below); `Rat.divInt` is used because it
evaluates inside the kernel, unlike `Rat.inv`. -/
def calculateRatio (m total : Nat) : ℚ :=
  if total ≠ 0 then Rat.divInt (2 * m) total else 1

/-- `SequenceMatcher(None, a, b).ratio()`. -/
def smRatio (a b : List Char) : ℚ :=
  calculateRatio (matchSum a b 0 a.length 0 b.length) (a.length + b.length)

/-- `fuzzy_match(text1, text2)` from `validate.py`: `0.0` when either
input is falsy, else the `SequenceMatcher` ratio of the whitespace- and
case-normalized strings. -/
def fuzzy_match (text1 text2 : List Char) : ℚ :=
  if text1 = [] ∨ text2 = [] then 0
  else smRatio (pyNormalize text1) (pyNormalize text2)

/-! ### The pair dictionaries and the batch validators -/

/-- A JSON-ish scalar value stored in a pair dictionary. -/
inductive PyVal where
  | str (s : List Char)
  | int (n : Int)
  | rat (q : ℚ)
  | null
deriving DecidableEq

/-- A Python dict, as an association list.  `{**d, k: v}` is modelled by
`d ++ [(k, v)]`, so lookups take the LAST binding of a key (later bindings
override earlier ones, as in dict unpacking). -/
abbrev PyDict := List (List Char × PyVal)

/-- Dict lookup: the last binding of `k`, if any. -/
def dget (d : PyDict) (k : List Char) : Option PyVal :=
  (d.reverse.find? (fun p => decide (p.1 = k))).map Prod.snd

/-- Python `d.get(k, default)`. -/
def pyGet (d : PyDict) (k : List Char) (default : PyVal) : PyVal :=
  (dget d k).getD default

/-- The string contents of a value; non-string values never reach the
string operations of the validators without Python raising, so they are
mapped to the empty string. -/
def asStr : PyVal → List Char
  | PyVal.str s => s
  | _ => []

/-- Python truthiness test (`not answer`) on the values a pair can hold. -/
def isFalsy (v : PyVal) : Bool :=
  v = PyVal.null ∨ v = PyVal.str [] ∨ v = PyVal.int 0 ∨ v = PyVal.rat 0

/-- Result of a batch validation: the `valid` and `rejected` lists, in
processing order. -/
structure ValidationResult where
  valid : List PyDict
  rejected : List PyDict
deriving DecidableEq

/-- Scan loop of `is_duplicate_question`: returns the first entry whose
similarity score meets or exceeds the threshold. -/
def isDupScan (new_question : List Char) (threshold : ℚ) :
    List (List Char) → Bool × Option (List Char) × ℚ
  | [] => (false, none, 0)
  | existing :: rest =>
    let score := fuzzy_match new_question existing
    if threshold ≤ score then (true, some existing, score)
    else isDupScan new_question threshold rest

/-- `is_duplicate_question(new_question, existing_questions, threshold)`
from `validate.py` (default threshold 0.95). -/
def is_duplicate_question (new_question : List Char)
    (existing_questions : List (List Char)) (threshold : ℚ) :
    Bool × Option (List Char) × ℚ :=
  if new_question = [] ∨ existing_questions = [] then (false, none, 0)
  else isDupScan new_question threshold existing_questions

/-- The loop of `validate_citations` with the batch-local accumulator
`batch_questions` made explicit; `valid` and `rejected` are returned in
processing order. -/
def validate_citations_aux (source_content : List Char)
    (existing_questions : List (List Char)) (question_threshold : ℚ) :
    List PyDict → List (List Char) → ValidationResult
  | [], _ => ⟨[], []⟩
  | pair :: rest, batch_questions =>
    let query := asStr (pyGet pair "query".toList (PyVal.str []))
    let citation := pyGet pair "citation".toList (PyVal.str [])
    if citation = PyVal.null then
      let r := validate_citations_aux source_content existing_questions question_threshold
        rest batch_questions
      ⟨r.valid,
        (pair ++ [("rejection_reason".toList, PyVal.str "citation_null".toList)]) :: r.rejected⟩
    else
      let span := compute_span (asStr citation) source_content
      if span.1 = false then
        let r := validate_citations_aux source_content existing_questions question_threshold
          rest batch_questions
        ⟨r.valid,
          (pair ++ [("rejection_reason".toList, PyVal.str "citation_not_found".toList)])
            :: r.rejected⟩
      else
        let dup := is_duplicate_question query (existing_questions ++ batch_questions)
          question_threshold
        if dup.1 then
          let r := validate_citations_aux source_content existing_questions question_threshold
            rest batch_questions
          ⟨r.valid,
            (pair ++ [("rejection_reason".toList, PyVal.str "duplicate_question".toList),
              ("similarity_score".toList, PyVal.rat dup.2.2),
              ("duplicate_of".toList, PyVal.str (dup.2.1.getD []))]) :: r.rejected⟩
        else
          let valid_pair := pair ++ [("start_index".toList, PyVal.int span.2.1),
            ("end_index".toList, PyVal.int span.2.2)]
          let r := validate_citations_aux source_content existing_questions question_threshold
            rest (batch_questions ++ [query])
          ⟨valid_pair :: r.valid, r.rejected⟩

/-- `validate_citations(pairs, source_content, existing_questions,
question_threshold=0.95)` from `validate.py`. -/
def validate_citations (pairs : List PyDict) (source_content : List Char)
    (existing_questions : List (List Char)) (question_threshold : ℚ) : ValidationResult :=
  validate_citations_aux source_content existing_questions question_threshold pairs []

/-- The loop of the legacy `validate_pairs`, with the batch-local
accumulator explicit.  `question = pair.get('question', pair.get('query', ''))`,
`answer = pair.get('answer', pair.get('citation', ''))`; a falsy answer is
rejected as `answer_missing`; span failure as `answer_mismatch`; valid
pairs are appended unannotated (`valid.append(pair)`). -/
def validate_pairs_aux (source_content : List Char)
    (existing_questions : List (List Char)) (question_threshold : ℚ) :
    List PyDict → List (List Char) → ValidationResult
  | [], _ => ⟨[], []⟩
  | pair :: rest, batch_questions =>
    let question := pyGet pair "question".toList (pyGet pair "query".toList (PyVal.str []))
    let answer := pyGet pair "answer".toList (pyGet pair "citation".toList (PyVal.str []))
    if isFalsy answer then
      let r := validate_pairs_aux source_content existing_questions question_threshold
        rest batch_questions
      ⟨r.valid,
        (pair ++ [("rejection_reason".toList, PyVal.str "answer_missing".toList)]) :: r.rejected⟩
    else
      let span := compute_span (asStr answer) source_content
      if span.1 = false then
        let r := validate_pairs_aux source_content existing_questions question_threshold
          rest batch_questions
        ⟨r.valid,
          (pair ++ [("rejection_reason".toList, PyVal.str "answer_mismatch".toList)])
            :: r.rejected⟩
      else
        let dup := is_duplicate_question (asStr question)
          (existing_questions ++ batch_questions) question_threshold
        if dup.1 then
          let r := validate_pairs_aux source_content existing_questions question_threshold
            rest batch_questions
          ⟨r.valid,
            (pair ++ [("rejection_reason".toList, PyVal.str "duplicate_question".toList),
              ("similarity_score".toList, PyVal.rat dup.2.2),
              ("duplicate_of".toList, PyVal.str (dup.2.1.getD []))]) :: r.rejected⟩
        else
          let r := validate_pairs_aux source_content existing_questions question_threshold
            rest (batch_questions ++ [asStr question])
          ⟨pair :: r.valid, r.rejected⟩

/-- Legacy `validate_pairs(pairs, source_content, existing_questions,
answer_threshold=0.95, question_threshold=0.95)` from `validate.py`.
`answer_threshold` is accepted but never read by the body (the body uses
exact span matching). -/
def validate_pairs (pairs : List PyDict) (source_content : List Char)
    (existing_questions : List (List Char)) (answer_threshold question_threshold : ℚ) :
    ValidationResult :=
  validate_pairs_aux source_content existing_questions question_threshold pairs []

/-- Python slicing `s[i:j]` for `0 ≤ i ≤ j` (as used with string offsets). -/
def pySlice (s : List Char) (i j : Nat) : List Char :=
  (s.drop i).take (j - i)

/-! ### Heap-level embedding of `validate_citations`

To state that `validate_citations` never mutates its caller's arguments,
the Python objects involved are modelled explicitly: a heap of objects
addressed by `Nat`, where `pairs` is a list object holding references to
pair dict objects, and `existing_questions` is a list object of strings.
Python list `append` mutates the addressed object in place; dict literals
and `{**pair, ...}` allocate fresh objects. -/

/-- A Python object on the heap. -/
inductive PyObj where
  | dict (d : PyDict)
  | dictList (elems : List Nat)
  | strList (elems : List (List Char))
deriving DecidableEq

/-- The heap: object at address `a` is the `a`-th entry; allocation
appends. -/
abbrev Heap := List PyObj

/-- Allocate a fresh object, returning the new heap and its address. -/
def halloc (h : Heap) (o : PyObj) : Heap × Nat := (h ++ [o], h.length)

/-- Read the object at an address (dangling reads yield an empty dict;
they do not occur in the verified runs). -/
def hread (h : Heap) (a : Nat) : PyObj := h.getD a (PyObj.dict [])

/-- Overwrite the object at an address (in-place mutation). -/
def hwrite (h : Heap) (a : Nat) (o : PyObj) : Heap := h.set a o

/-- Read an address as a pair dict. -/
def readDict (h : Heap) (a : Nat) : PyDict :=
  match hread h a with
  | PyObj.dict d => d
  | _ => []

/-- Read an address as a list of dict references. -/
def readDictList (h : Heap) (a : Nat) : List Nat :=
  match hread h a with
  | PyObj.dictList l => l
  | _ => []

/-- Read an address as a list of strings. -/
def readStrList (h : Heap) (a : Nat) : List (List Char) :=
  match hread h a with
  | PyObj.strList l => l
  | _ => []

/-- The loop of `validate_citations` at heap level.  One iteration per
pair reference: a rejection allocates the annotated copy `{**pair, ...}`
and appends its address to the `rejected` list object; an acceptance
allocates `valid_pair = {**pair}`, performs the two item assignments
`valid_pair['start_index'] = ...`, `valid_pair['end_index'] = ...` as
in-place updates, appends its address to `valid` and appends the query to
the `batch_questions` list object.  `existing_questions` is re-read from
the heap at each duplicate check (`existing_questions + batch_questions`
builds a fresh temporary value). -/
def vcHeapLoop (src : List Char) (eqAddr : Nat) (th : ℚ)
    (vAddr rAddr bAddr : Nat) : List Nat → Heap → Heap
  | [], h => h
  | pAddr :: rest, h =>
    let pair := readDict h pAddr
    let query := asStr (pyGet pair "query".toList (PyVal.str []))
    let citation := pyGet pair "citation".toList (PyVal.str [])
    if citation = PyVal.null then
      let al := halloc h (PyObj.dict
        (pair ++ [("rejection_reason".toList, PyVal.str "citation_null".toList)]))
      let h2 := hwrite al.1 rAddr (PyObj.dictList (readDictList al.1 rAddr ++ [al.2]))
      vcHeapLoop src eqAddr th vAddr rAddr bAddr rest h2
    else
      let span := compute_span (asStr citation) src
      if span.1 = false then
        let al := halloc h (PyObj.dict
          (pair ++ [("rejection_reason".toList, PyVal.str "citation_not_found".toList)]))
        let h2 := hwrite al.1 rAddr (PyObj.dictList (readDictList al.1 rAddr ++ [al.2]))
        vcHeapLoop src eqAddr th vAddr rAddr bAddr rest h2
      else
        let dup := is_duplicate_question query
          (readStrList h eqAddr ++ readStrList h bAddr) th
        if dup.1 then
          let al := halloc h (PyObj.dict
            (pair ++ [("rejection_reason".toList, PyVal.str "duplicate_question".toList),
              ("similarity_score".toList, PyVal.rat dup.2.2),
              ("duplicate_of".toList, PyVal.str (dup.2.1.getD []))]))
          let h2 := hwrite al.1 rAddr (PyObj.dictList (readDictList al.1 rAddr ++ [al.2]))
          vcHeapLoop src eqAddr th vAddr rAddr bAddr rest h2
        else
          let al := halloc h (PyObj.dict pair)
          let h2 := hwrite al.1 al.2 (PyObj.dict
            (readDict al.1 al.2 ++ [("start_index".toList, PyVal.int span.2.1)]))
          let h3 := hwrite h2 al.2 (PyObj.dict
            (readDict h2 al.2 ++ [("end_index".toList, PyVal.int span.2.2)]))
          let h4 := hwrite h3 vAddr (PyObj.dictList (readDictList h3 vAddr ++ [al.2]))
          let h5 := hwrite h4 bAddr (PyObj.strList (readStrList h4 bAddr ++ [query]))
          vcHeapLoop src eqAddr th vAddr rAddr bAddr rest h5

/-- Heap-level `validate_citations(pairs, source_content,
existing_questions, question_threshold)`: allocates the fresh `valid`,
`rejected` and `batch_questions` list objects, runs the loop over the
addresses stored in the `pairs` list object (which the loop never
mutates), and returns the final heap together with the addresses of
`valid` and `rejected` (the returned result dict holds these two
references). -/
def validate_citations_heap (h : Heap) (pairsAddr : Nat) (src : List Char)
    (eqAddr : Nat) (th : ℚ) : Heap × Nat × Nat :=
  let a1 := halloc h (PyObj.dictList [])
  let a2 := halloc a1.1 (PyObj.dictList [])
  let a3 := halloc a2.1 (PyObj.strList [])
  (vcHeapLoop src eqAddr th a1.2 a2.2 a3.2 (readDictList a3.1 pairsAddr) a3.1,
    a1.2, a2.2)

/-- Modelled from the spec: the spec's §4.1 second (fuzzy) resolver
variant is not part of `src/helpers/validate.py`; this definition follows
the spec's words for its answer-validity decision: "first attempts an
exact, case-insensitive substring check (return score 1.0 if present)",
otherwise "for window sizes equal to 100%, 90%, and 110% of the
normalized candidate's length, slide a window of that size across the
normalized document computing a similarity ratio between the window and
the candidate at every offset; ... short-circuit and return valid the
instant any window reaches the threshold" (percentages floored to whole
characters). -/
def answer_valid_spec (answer document : List Char) (threshold : ℚ) : Bool :=
  let na := pyNormalize answer
  let nd := pyNormalize document
  if (pyFind nd na).isSome then true
  else
    [na.length, na.length * 9 / 10, na.length * 11 / 10].any (fun w =>
      (List.range (nd.length + 1 - w)).any (fun off =>
        threshold ≤ smRatio (pySlice nd off (off + w)) na))

/-! ### Properties of `pyFind` -/

/-- DP chain length ending at row `i`, column `j`, for
`SequenceMatcher(None, t, t)`: length of the common suffix whose columns
are present in `b2j` (i.e. of non-popular characters). -/
def ell (t : List Char) : Nat → Nat → Nat
  | 0, j => if j ∈ b2j t (t.getD 0 'x') then 1 else 0
  | i + 1, j =>
    if j ∈ b2j t (t.getD (i + 1) 'x') then
      (if j = 0 then 1 else ell t i (j - 1) + 1)
    else 0

/-- `ell` over the `Int` keys of the `j2len` maps. -/
def ellI (t : List Char) (i : Nat) (jz : Int) : Nat :=
  if 0 ≤ jz then ell t i jz.toNat else 0

/-- Rename of rejection reasons between the two validator vocabularies:
`citation_not_found` becomes `answer_mismatch`; everything else is kept. -/
def renameAnswerReason (d : PyDict) : PyDict :=
  d.map (fun kv =>
    if kv.1 = "rejection_reason".toList ∧ kv.2 = PyVal.str "citation_not_found".toList
    then (kv.1, PyVal.str "answer_mismatch".toList) else kv)

/-- Field retention: `r` agrees with `p` on every key outside `ks`. -/
def keepsExcept (p r : PyDict) (ks : List (List Char)) : Prop :=
  ∀ k, k ∉ ks → dget r k = dget p k

/-- A rejected entry: retains all fields of its source pair except the
annotations, carries a `rejection_reason` from the allowed set, and, for
`duplicate_question`, also `similarity_score` and `duplicate_of`. -/
def rejectedOK (reasons : List (List Char)) (p r : PyDict) : Prop :=
  keepsExcept p r ["rejection_reason".toList, "similarity_score".toList,
    "duplicate_of".toList] ∧
  (∃ reason, dget r "rejection_reason".toList = some (PyVal.str reason) ∧
    reason ∈ reasons) ∧
  (dget r "rejection_reason".toList =
      some (PyVal.str "duplicate_question".toList) →
    (∃ sc, dget r "similarity_score".toList = some (PyVal.rat sc)) ∧
    (∃ dq, dget r "duplicate_of".toList = some (PyVal.str dq)))

/-- A valid entry of the citation variant: retains all fields except the
span annotations and carries `start_index`/`end_index` from the resolved
span of its pair's citation. -/
def validOKcit (src : List Char) (p v : PyDict) : Prop :=
  keepsExcept p v ["start_index".toList, "end_index".toList] ∧
  ∃ s e : Int,
    compute_span (asStr (pyGet p "citation".toList (PyVal.str []))) src = (true, s, e) ∧
    dget v "start_index".toList = some (PyVal.int s) ∧
    dget v "end_index".toList = some (PyVal.int e)

theorem bestOK_mono {alo blo bhi hi hi' : Nat} {best : Nat × Nat × Nat}
    (h : bestOK alo blo bhi hi best) (hh : hi ≤ hi') : bestOK alo blo bhi hi' best := by
  rcases h with h | h
  · exact Or.inl h
  · exact Or.inr ⟨h.1, h.2.1, le_trans h.2.2.1 hh, h.2.2.2⟩

theorem bestOK_intro {alo blo bhi hi bi bj k : Nat} (h1 : 1 ≤ k) (h2 : alo ≤ bi)
    (h3 : bi + k ≤ hi) (h4 : blo ≤ bj) (h5 : bj + k ≤ bhi) :
    bestOK alo blo bhi hi (bi, bj, k) :=
  Or.inr ⟨h1, h2, h3, h4, h5⟩

theorem flmRow_inv {blo bhi i m alo : Nat} {j2len : Int → Nat}
    (js : List Nat) (acc : Int → Nat) (best : Nat × Nat × Nat)
    (hj : j2lenOK blo bhi m j2len) (hacc : j2lenOK blo bhi (m + 1) acc)
    (hb : bestOK alo blo bhi (i + 1) best) (him : alo + m ≤ i) :
    j2lenOK blo bhi (m + 1) (flmRow blo bhi i j2len js acc best).1 ∧
      bestOK alo blo bhi (i + 1) (flmRow blo bhi i j2len js acc best).2 := by
  induction js generalizing acc best with
  | nil => exact ⟨hacc, hb⟩
  | cons j js ih =>
    by_cases h1 : j < blo
    · rw [flmRow, if_pos h1]; exact ih acc best hacc hb
    · by_cases h2 : bhi ≤ j
      · rw [flmRow, if_neg h1, if_pos h2]; exact ⟨hacc, hb⟩
      · rw [flmRow, if_neg h1, if_neg h2]
        have hk : j2len ((j : Int) - 1) + 1 ≤ m + 1 ∧
            ((j2len ((j : Int) - 1) + 1 : Nat) : Int) ≤ (j : Int) + 1 - blo := by
          rcases hj ((j : Int) - 1) with h | h
          · rw [h]; constructor
            · omega
            · push_cast; omega
          · push_cast at h ⊢; omega
        apply ih
        · intro jz
          by_cases hjz : jz = (j : Int)
          · subst hjz
            rw [Function.update_same]
            right
            refine ⟨by exact_mod_cast Nat.not_lt.mp h1, by exact_mod_cast Nat.not_le.mp h2,
              hk.1, hk.2⟩
          · rw [Function.update_noteq hjz]; exact hacc jz
        · by_cases hlt : best.2.2 < j2len ((j : Int) - 1) + 1
          · rw [if_pos hlt]
            have hjb : blo ≤ j := Nat.not_lt.mp h1
            have hjh : j < bhi := Nat.not_le.mp h2
            have h3 : ((j2len ((j : Int) - 1) + 1 : Nat) : Int) ≤ (j : Int) + 1 - blo := hk.2
            have h4 : j2len ((j : Int) - 1) + 1 ≤ m + 1 := hk.1
            refine bestOK_intro (by omega) (by omega) (by omega) ?_ ?_
            · push_cast at h3; omega
            · push_cast at h3; omega
          · rw [if_neg hlt]; exact hb

theorem flmRows_inv (a b : List Char) (blo bhi alo : Nat) :
    ∀ (cnt s : Nat) (j2len : Int → Nat) (best : Nat × Nat × Nat), alo ≤ s →
      j2lenOK blo bhi (s - alo) j2len → bestOK alo blo bhi s best →
      bestOK alo blo bhi (s + cnt)
        (flmRows a b blo bhi (List.range' s cnt) j2len best).2 := by
  intro cnt
  induction cnt with
  | zero => intro s j2len best _ _ hb; simpa using hb
  | succ n ih =>
    intro s j2len best hs hj hb
    rw [List.range'_succ, flmRows]
    have hrow := @flmRow_inv blo bhi s (s - alo) alo j2len
      (b2j b (a.getD s 'x')) (fun _ => 0) best hj
      (fun _ => Or.inl rfl) (bestOK_mono hb (Nat.le_succ s)) (by omega)
    have := ih (s + 1) _ _ (by omega) (by
        have : s + 1 - alo = s - alo + 1 := by omega
        rw [this]; exact hrow.1) hrow.2
    have heq : s + (n + 1) = s + 1 + n := by omega
    rw [heq]
    exact this

theorem extendBack_spec (a b : List Char) (alo blo : Nat) :
    ∀ (besti bestj bestsize : Nat),
      alo ≤ besti → blo ≤ bestj →
      (extendBack a b alo blo besti bestj bestsize).1 +
          (extendBack a b alo blo besti bestj bestsize).2.2 = besti + bestsize ∧
        (extendBack a b alo blo besti bestj bestsize).2.1 +
          (extendBack a b alo blo besti bestj bestsize).2.2 = bestj + bestsize ∧
        alo ≤ (extendBack a b alo blo besti bestj bestsize).1 ∧
        blo ≤ (extendBack a b alo blo besti bestj bestsize).2.1 ∧
        bestsize ≤ (extendBack a b alo blo besti bestj bestsize).2.2 := by
  intro besti
  induction besti with
  | zero =>
    intro bestj bestsize hi hj
    exact ⟨rfl, rfl, hi, hj, le_refl _⟩
  | succ n ih =>
    intro bestj bestsize hi hj
    rw [extendBack]
    by_cases h : alo < n + 1 ∧ blo < bestj ∧ isbjunk (b.getD (bestj - 1) 'x') = false ∧
        a.getD n 'x' = b.getD (bestj - 1) 'x'
    · rw [if_pos h]
      have := ih (bestj - 1) (bestsize + 1) (by omega) (by omega)
      refine ⟨by omega, by omega, this.2.2.1, this.2.2.2.1, by omega⟩
    · rw [if_neg h]
      exact ⟨rfl, rfl, hi, hj, le_refl _⟩

theorem extendFwdGo_spec (a b : List Char) (ahi bhi besti bestj : Nat) :
    ∀ (gas bestsize : Nat),
      bestsize ≤ extendFwdGo a b ahi bhi besti bestj gas bestsize ∧
        (extendFwdGo a b ahi bhi besti bestj gas bestsize = bestsize ∨
          (besti + extendFwdGo a b ahi bhi besti bestj gas bestsize ≤ ahi ∧
            bestj + extendFwdGo a b ahi bhi besti bestj gas bestsize ≤ bhi)) := by
  intro gas
  induction gas with
  | zero => intro bestsize; exact ⟨le_refl _, Or.inl rfl⟩
  | succ n ih =>
    intro bestsize
    rw [extendFwdGo]
    by_cases h : besti + bestsize < ahi ∧ bestj + bestsize < bhi ∧
        isbjunk (b.getD (bestj + bestsize) 'x') = false ∧
        a.getD (besti + bestsize) 'x' = b.getD (bestj + bestsize) 'x'
    · rw [if_pos h]
      have := ih (bestsize + 1)
      refine ⟨by omega, ?_⟩
      rcases this.2 with h2 | h2
      · rw [h2]; right; omega
      · right; exact h2
    · rw [if_neg h]
      exact ⟨le_refl _, Or.inl rfl⟩

theorem extendFwd_spec (a b : List Char) (ahi bhi besti bestj bestsize : Nat) :
    bestsize ≤ extendFwd a b ahi bhi besti bestj bestsize ∧
      (extendFwd a b ahi bhi besti bestj bestsize = bestsize ∨
        (besti + extendFwd a b ahi bhi besti bestj bestsize ≤ ahi ∧
          bestj + extendFwd a b ahi bhi besti bestj bestsize ≤ bhi)) :=
  extendFwdGo_spec a b ahi bhi besti bestj (ahi - (besti + bestsize)) bestsize

theorem extendBackJunk_eq (a b : List Char) (alo blo besti bestj bestsize : Nat) :
    extendBackJunk a b alo blo besti bestj bestsize = (besti, bestj, bestsize) := by
  cases besti with
  | zero => rfl
  | succ n =>
    rw [extendBackJunk]
    simp [isbjunk]

theorem extendFwdJunkGo_eq (a b : List Char) (ahi bhi besti bestj : Nat) :
    ∀ gas bestsize, extendFwdJunkGo a b ahi bhi besti bestj gas bestsize = bestsize := by
  intro gas bestsize
  cases gas with
  | zero => rfl
  | succ n =>
    rw [extendFwdJunkGo]
    simp [isbjunk]

theorem extendFwdJunk_eq (a b : List Char) (ahi bhi besti bestj bestsize : Nat) :
    extendFwdJunk a b ahi bhi besti bestj bestsize = bestsize :=
  extendFwdJunkGo_eq a b ahi bhi besti bestj _ bestsize

/-- Region bounds of `find_longest_match`: a non-empty best block lies
inside the requested region. -/
theorem find_longest_match_bounds (a b : List Char) (alo ahi blo bhi : Nat) :
    (find_longest_match a b alo ahi blo bhi).2.2 = 0 ∨
      (alo ≤ (find_longest_match a b alo ahi blo bhi).1 ∧
        (find_longest_match a b alo ahi blo bhi).1 +
          (find_longest_match a b alo ahi blo bhi).2.2 ≤ ahi ∧
        blo ≤ (find_longest_match a b alo ahi blo bhi).2.1 ∧
        (find_longest_match a b alo ahi blo bhi).2.1 +
          (find_longest_match a b alo ahi blo bhi).2.2 ≤ bhi) := by
  have hrows := flmRows_inv a b blo bhi alo (ahi - alo) alo (fun _ => 0) (alo, blo, 0)
    (le_refl alo) (by intro jz; exact Or.inl rfl) (Or.inl rfl)
  rw [find_longest_match]
  set p := flmRows a b blo bhi (List.range' alo (ahi - alo)) (fun _ => 0) (alo, blo, 0)
    with hp
  have hpb : bestOK alo blo bhi (alo + (ahi - alo)) p.2 := hrows
  have hextB0 : extendBack a b alo blo alo blo 0 = (alo, blo, 0) := by
    cases alo with
    | zero => rfl
    | succ n =>
      rw [extendBack]
      simp
  rcases hpb with hcase | hcase
  · rw [hcase]
    simp only [Prod.mk.eta]
    rw [hextB0]
    simp only []
    have hef := extendFwd_spec a b ahi bhi alo blo 0
    set k1 := extendFwd a b ahi bhi alo blo 0 with hk1
    rw [extendBackJunk_eq, extendFwdJunk_eq]
    simp only [Prod.mk.eta]
    rcases hef.2 with h | h
    · exact Or.inl h
    · by_cases hz : k1 = 0
      · exact Or.inl hz
      · exact Or.inr ⟨le_refl _, h.1, le_refl _, h.2⟩
  · have hib : alo ≤ p.2.1 ∧ blo ≤ p.2.2.1 := ⟨hcase.2.1, hcase.2.2.2.1⟩
    have heb := extendBack_spec a b alo blo p.2.1 p.2.2.1 p.2.2.2 hib.1 hib.2
    set e1 := extendBack a b alo blo p.2.1 p.2.2.1 p.2.2.2 with he1
    have hef := extendFwd_spec a b ahi bhi e1.1 e1.2.1 e1.2.2
    set k1 := extendFwd a b ahi bhi e1.1 e1.2.1 e1.2.2 with hk1
    rw [extendBackJunk_eq, extendFwdJunk_eq]
    simp only [Prod.mk.eta]
    by_cases hz : k1 = 0
    · exact Or.inl hz
    · right
      have hk : 1 ≤ p.2.2.2 := hcase.1
      have hahi : p.2.1 + p.2.2.2 ≤ alo + (ahi - alo) := hcase.2.2.1
      have hbhi : p.2.2.1 + p.2.2.2 ≤ bhi := hcase.2.2.2.2
      refine ⟨heb.2.2.1, ?_, heb.2.2.2.1, ?_⟩
      · rcases hef.2 with h | h
        · rw [h]; omega
        · exact h.1
      · rcases hef.2 with h | h
        · rw [h]; omega
        · exact h.2

/-- Component form of `find_longest_match_bounds`. -/
theorem find_longest_match_bounds' (a b : List Char) (alo ahi blo bhi i j k : Nat)
    (h : find_longest_match a b alo ahi blo bhi = (i, j, k)) :
    k = 0 ∨ (alo ≤ i ∧ i + k ≤ ahi ∧ blo ≤ j ∧ j + k ≤ bhi) := by
  have hb := find_longest_match_bounds a b alo ahi blo bhi
  rw [h] at hb
  exact hb

theorem calculateRatio_eq_div (m total : Nat) :
    calculateRatio m total = if total ≠ 0 then 2 * (m : ℚ) / (total : ℚ) else 1 := by
  rw [calculateRatio]
  by_cases h : total ≠ 0
  · rw [if_pos h, if_pos h, Rat.divInt_eq_div]
    push_cast
    ring
  · rw [if_neg h, if_neg h]

theorem find?_append_eq {α : Type} (l1 l2 : List α) (p : α → Bool) :
    (l1 ++ l2).find? p =
      (match l1.find? p with | some x => some x | none => l2.find? p) := by
  induction l1 with
  | nil => simp
  | cons a l ih =>
    by_cases h : p a
    · simp [List.find?, h]
    · simp only [List.cons_append, List.find?, h]
      exact ih

theorem range_find?_eq_some {p : Nat → Bool} :
    ∀ {n m : Nat}, (List.range n).find? p = some m ↔
      m < n ∧ p m = true ∧ ∀ k < m, p k = false := by
  intro n
  induction n with
  | zero => intro m; simp
  | succ n ih =>
    intro m
    rw [List.range_succ, find?_append_eq]
    rcases h : (List.range n).find? p with _ | x
    · have hall : ∀ x ∈ List.range n, ¬ p x = true := List.find?_eq_none.mp h
      simp only [List.find?]
      by_cases hp : p n
      · rw [hp]
        constructor
        · intro he
          have hmn : m = n := by cases he; rfl
          rw [hmn]
          exact ⟨Nat.lt_succ_self n, hp, fun k hk => by
            have := hall k (List.mem_range.mpr hk)
            simpa using this⟩
        · intro ⟨h1, h2, _⟩
          have : m = n := by
            rcases Nat.lt_succ_iff_lt_or_eq.mp h1 with h | h
            · exact absurd h2 (by simpa using hall m (List.mem_range.mpr h))
            · exact h
          simp [this]
      · simp only [Bool.not_eq_true] at hp
        rw [hp]
        constructor
        · intro he; cases he
        · intro ⟨h1, h2, _⟩
          rcases Nat.lt_succ_iff_lt_or_eq.mp h1 with h | h
          · exact absurd h2 (by simpa using hall m (List.mem_range.mpr h))
          · subst h; rw [hp] at h2; cases h2
    · have hx := ih.mp h
      constructor
      · intro he
        have hmx : m = x := by cases he; rfl
        rw [hmx]
        exact ⟨Nat.lt_succ_of_lt hx.1, hx.2.1, hx.2.2⟩
      · intro ⟨_, h2, h3⟩
        have hxm : ¬ x < m := fun hc => by rw [h3 x hc] at hx; exact absurd hx.2.1 (by simp)
        have hmx : ¬ m < x := fun hc => by rw [hx.2.2 m hc] at h2; cases h2
        have : m = x := by omega
        simp [this]

theorem pyFind_eq_some {hay needle : List Char} {m : Nat} :
    pyFind hay needle = some m ↔
      m ≤ hay.length ∧ matchesAt hay needle m = true ∧
        ∀ k < m, matchesAt hay needle k = false := by
  rw [pyFind, range_find?_eq_some]
  constructor
  · intro ⟨h1, h2, h3⟩; exact ⟨by omega, h2, h3⟩
  · intro ⟨h1, h2, h3⟩; exact ⟨by omega, h2, h3⟩

theorem pyFind_eq_none {hay needle : List Char} :
    pyFind hay needle = none ↔ ∀ k ≤ hay.length, matchesAt hay needle k = false := by
  rw [pyFind, List.find?_eq_none]
  constructor
  · intro h k hk
    simpa using h k (List.mem_range.mpr (by omega))
  · intro h x hx
    simp [h x (by have := List.mem_range.mp hx; omega)]

theorem matchesAt_pySlice (D : List Char) (i j : Nat) :
    matchesAt D (pySlice D i j) i = true := by
  simp only [matchesAt, pySlice, List.length_take, decide_eq_true_eq]
  rw [List.take_eq_take]
  simp [Nat.min_assoc]

/-- C1 (corrected): for every document `D` and indices `i < j` with
`S = D[i:j]` non-empty, `compute_span(S, D)` succeeds via the exact pass,
but returns the offset `i0` of the FIRST literal occurrence of `S` in `D`
(`i0 ≤ i`, with nothing matching before `i0`), and
`end = i0 + len(S)` — not necessarily `(i, j)`. -/
theorem C1_compute_span_first_occurrence (D : List Char) (i j : Nat)
    (hij : i < j) (hne : pySlice D i j ≠ []) :
    ∃ i0, i0 ≤ i ∧ matchesAt D (pySlice D i j) i0 = true ∧
      (∀ k < i0, matchesAt D (pySlice D i j) k = false) ∧
      compute_span (pySlice D i j) D =
        (true, (i0 : Int), (i0 : Int) + (pySlice D i j).length) := by
  have hD : D ≠ [] := by
    intro h
    rw [h] at hne
    simp [pySlice] at hne
  have hiA : matchesAt D (pySlice D i j) i = true := matchesAt_pySlice D i j
  have hfs : pyFind D (pySlice D i j) ≠ none := by
    intro h
    have := pyFind_eq_none.mp h i (by
      by_contra hc
      have : D.drop i = [] := List.drop_eq_nil_of_le (by omega)
      rw [pySlice, this] at hne
      simp at hne)
    rw [hiA] at this
    cases this
  rcases hm : pyFind D (pySlice D i j) with _ | m
  · exact absurd hm hfs
  · have hc := pyFind_eq_some.mp hm
    refine ⟨m, ?_, hc.2.1, hc.2.2, ?_⟩
    · by_contra hlt
      have := hc.2.2 i (by omega)
      rw [hiA] at this
      cases this
    · rw [compute_span, if_neg (by simp [hne, hD]), hm]

/-- C1 counterexample: with `D = "aa"`, `i = 1`, `j = 2`, the slice is
`"a"`, but `compute_span("a", "aa")` returns `(true, 0, 1)` — the first
occurrence — not `(true, 1, 2)` as the claim states. -/
theorem C1_counterexample :
    pySlice "aa".toList 1 2 = "a".toList ∧
      compute_span (pySlice "aa".toList 1 2) "aa".toList = (true, 0, 1) ∧
      compute_span (pySlice "aa".toList 1 2) "aa".toList ≠ (true, 1, 2) :=
  ⟨by decide, by decide, by decide⟩

/-- Witness for `C1_compute_span_first_occurrence` at `D = "aa"`, `i = 1`,
`j = 2`. -/
theorem C1_witness :
    ∃ i0, i0 ≤ 1 ∧ matchesAt "aa".toList (pySlice "aa".toList 1 2) i0 = true ∧
      (∀ k < i0, matchesAt "aa".toList (pySlice "aa".toList 1 2) k = false) ∧
      compute_span (pySlice "aa".toList 1 2) "aa".toList =
        (true, (i0 : Int), (i0 : Int) + (pySlice "aa".toList 1 2).length) :=
  C1_compute_span_first_occurrence "aa".toList 1 2 (by decide) (by decide)

/-- C2 (corrected): a pair whose `citation` field is present and `null` is
rejected as `citation_null`, regardless of the document, without reaching
span resolution or duplicate checking; but a pair whose `citation` field
is ABSENT gets the default `''`, which fails span resolution, and is
rejected as `citation_not_found` — not `citation_null`. -/
theorem C2_null_and_absent_citation (pair : PyDict) (pairs : List PyDict)
    (src : List Char) (hist : List (List Char)) (th : ℚ) :
    (dget pair "citation".toList = some PyVal.null →
      validate_citations (pair :: pairs) src hist th =
        ⟨(validate_citations pairs src hist th).valid,
          (pair ++ [("rejection_reason".toList, PyVal.str "citation_null".toList)]) ::
            (validate_citations pairs src hist th).rejected⟩) ∧
    (dget pair "citation".toList = none →
      validate_citations (pair :: pairs) src hist th =
        ⟨(validate_citations pairs src hist th).valid,
          (pair ++ [("rejection_reason".toList, PyVal.str "citation_not_found".toList)]) ::
            (validate_citations pairs src hist th).rejected⟩) := by
  constructor
  · intro h
    have hc : pyGet pair "citation".toList (PyVal.str []) = PyVal.null := by
      rw [pyGet, h]; rfl
    show validate_citations_aux src hist th (pair :: pairs) [] = _
    simp only [validate_citations_aux]
    rw [if_pos hc]
    rfl
  · intro h
    have hc : pyGet pair "citation".toList (PyVal.str []) = PyVal.str [] := by
      rw [pyGet, h]; rfl
    have hspan : compute_span (asStr (PyVal.str [])) src = (false, -1, -1) := by
      rw [asStr, compute_span, if_pos (Or.inl rfl)]
    show validate_citations_aux src hist th (pair :: pairs) [] = _
    simp only [validate_citations_aux]
    rw [hc, if_neg (by intro hx; cases hx), if_pos (by rw [hspan])]
    rfl

/-- C2 counterexample: a pair with NO `citation` key at all (and document
`"x"`) is rejected with `citation_not_found`, not `citation_null` as the
claim states for an absent field. -/
theorem C2_counterexample :
    validate_citations [[("query".toList, PyVal.str "q".toList)]] "x".toList [] (mkRat 95 100) =
      ⟨[], [[("query".toList, PyVal.str "q".toList),
        ("rejection_reason".toList, PyVal.str "citation_not_found".toList)]]⟩ ∧
      "citation_not_found".toList ≠ "citation_null".toList :=
  ⟨by decide, by decide⟩

/-- Witness for `C2_null_and_absent_citation`: a null-citation pair and a
missing-citation pair on document `"doc"`. -/
theorem C2_witness :
    validate_citations [[("citation".toList, PyVal.null)]] "doc".toList [] (mkRat 95 100) =
      ⟨[], [[("citation".toList, PyVal.null),
        ("rejection_reason".toList, PyVal.str "citation_null".toList)]]⟩ ∧
    validate_citations [[("query".toList, PyVal.str "q".toList)]] "doc".toList [] (mkRat 95 100) =
      ⟨[], [[("query".toList, PyVal.str "q".toList),
        ("rejection_reason".toList, PyVal.str "citation_not_found".toList)]]⟩ := by
  constructor
  · have := (C2_null_and_absent_citation [("citation".toList, PyVal.null)] []
      "doc".toList [] (mkRat 95 100)).1 (by decide)
    rw [this]
    decide
  · have := (C2_null_and_absent_citation [("query".toList, PyVal.str "q".toList)] []
      "doc".toList [] (mkRat 95 100)).2 (by decide)
    rw [this]
    decide

theorem isDupScan_eq (q : List Char) (th : ℚ) :
    ∀ l : List (List Char), isDupScan q th l =
      match l.find? (fun h => decide (th ≤ fuzzy_match q h)) with
      | some h => (true, some h, fuzzy_match q h)
      | none => (false, none, 0) := by
  intro l
  induction l with
  | nil => rfl
  | cons h t ih =>
    by_cases hs : th ≤ fuzzy_match q h
    · rw [isDupScan, if_pos hs]
      simp [List.find?, hs]
    · rw [isDupScan, if_neg hs]
      simp only [List.find?, decide_eq_true_eq]
      rw [decide_eq_false hs]
      exact ih

/-- C6 (corrected): for a NON-EMPTY question, `is_duplicate_question`
scans the history in order and returns `(true, h, score)` for the first
entry `h` whose similarity meets or exceeds the threshold (`List.find?`),
and `(false, none, 0.0)` when no entry does; but an EMPTY question
short-circuits to `(false, none, 0.0)` even when an entry would meet the
threshold. -/
theorem C6_first_match_semantics (q : List Char) (hist : List (List Char)) (th : ℚ) :
    (q ≠ [] → ∀ h, hist.find? (fun x => decide (th ≤ fuzzy_match q x)) = some h →
      is_duplicate_question q hist th = (true, some h, fuzzy_match q h)) ∧
    (q ≠ [] → hist.find? (fun x => decide (th ≤ fuzzy_match q x)) = none →
      is_duplicate_question q hist th = (false, none, 0)) ∧
    (q = [] → is_duplicate_question q hist th = (false, none, 0)) := by
  refine ⟨?_, ?_, ?_⟩
  · intro hq h hf
    cases hist with
    | nil => cases hf
    | cons x t =>
      rw [is_duplicate_question, if_neg (by simp [hq])]
      rw [isDupScan_eq, hf]
  · intro hq hf
    cases hist with
    | nil => rw [is_duplicate_question, if_pos (Or.inr rfl)]
    | cons x t =>
      rw [is_duplicate_question, if_neg (by simp [hq])]
      rw [isDupScan_eq, hf]
  · intro hq
    rw [is_duplicate_question, if_pos (Or.inl hq)]

/-- C6 counterexample: with the empty question, history `["a"]` and
threshold `0.0`, the first entry's score (`0.0`) meets the threshold, yet
the function returns `(false, none, 0.0)` instead of reporting the first
matching entry. -/
theorem C6_counterexample :
    (0 : ℚ) ≤ fuzzy_match [] "a".toList ∧
      is_duplicate_question [] ["a".toList] 0 = (false, none, 0) ∧
      is_duplicate_question [] ["a".toList] 0 ≠
        (true, some "a".toList, fuzzy_match [] "a".toList) :=
  ⟨by decide, by decide, by decide⟩

/-- Witness for `C6_first_match_semantics`: history `["Hello   World",
"HELLO WORLD"]`, both scoring `1.0 ≥ 0.95` against `"hello world"`; the
first entry is reported. -/
theorem C6_witness :
    is_duplicate_question "hello world".toList
        ["Hello   World".toList, "HELLO WORLD".toList] (mkRat 95 100) =
      (true, some "Hello   World".toList,
        fuzzy_match "hello world".toList "Hello   World".toList) :=
  (C6_first_match_semantics "hello world".toList
      ["Hello   World".toList, "HELLO WORLD".toList] (mkRat 95 100)).1
    (by decide) "Hello   World".toList (by decide)

/-! ### Whitespace-only strings and `fuzzy_match` (claim C10) -/

theorem toNat_ofNat_valid {m : Nat} (h : m.isValidChar) : (Char.ofNat m).toNat = m := by
  rw [Char.ofNat, dif_pos h]
  rfl

theorem isPySpace_toNat {c : Char} :
    isPySpace c = true ↔
      (c.toNat = 32 ∨ c.toNat = 9 ∨ c.toNat = 10 ∨ c.toNat = 13 ∨
        c.toNat = 11 ∨ c.toNat = 12) := by
  rw [isPySpace]
  simp only [decide_eq_true_eq]
  have hix : ∀ d : Char, c = d ↔ c.toNat = d.toNat := by
    intro d
    constructor
    · intro h; rw [h]
    · intro h
      apply Char.eq_of_val_eq
      apply UInt32.eq_of_toBitVec_eq
      apply BitVec.eq_of_toNat_eq
      exact h
  rw [hix ' ', hix '\t', hix '\n', hix '\r', hix '\x0b', hix '\x0c']
  have e1 : ' '.toNat = 32 := rfl
  have e2 : '\t'.toNat = 9 := rfl
  have e3 : '\n'.toNat = 10 := rfl
  have e4 : '\r'.toNat = 13 := rfl
  have e5 : '\x0b'.toNat = 11 := rfl
  have e6 : '\x0c'.toNat = 12 := rfl
  rw [e1, e2, e3, e4, e5, e6]

theorem isPySpace_pyLower (c : Char) : isPySpace (pyLower c) = isPySpace c := by
  rw [pyLower, Char.toLower]
  by_cases h : Char.toNat c ≥ 65 ∧ Char.toNat c ≤ 90
  · rw [if_pos h]
    have hv : (Char.ofNat (Char.toNat c + 32)).toNat = Char.toNat c + 32 :=
      toNat_ofNat_valid (Or.inl (by omega))
    have h1 : isPySpace c = false := by
      by_contra hc
      have := isPySpace_toNat.mp (by
        cases hb : isPySpace c
        · exact absurd hb hc
        · rfl)
      omega
    have h2 : isPySpace (Char.ofNat (Char.toNat c + 32)) = false := by
      by_contra hc
      have := isPySpace_toNat.mp (by
        cases hb : isPySpace (Char.ofNat (Char.toNat c + 32))
        · exact absurd hb hc
        · rfl)
      omega
    rw [h1, h2]
  · rw [if_neg h]

theorem pySplitAux_eq_nil :
    ∀ (l acc : List Char), pySplitAux l acc = [] ↔ acc = [] ∧ ∀ c ∈ l, isPySpace c = true := by
  intro l
  induction l with
  | nil =>
    intro acc
    by_cases h : acc = []
    · subst h; simp [pySplitAux]
    · rw [pySplitAux, if_neg h]
      simp [h]
  | cons c rest ih =>
    intro acc
    rw [pySplitAux]
    by_cases hsp : isPySpace c
    · rw [if_pos hsp]
      by_cases hacc : acc = []
      · rw [if_pos hacc, ih]
        simp [hacc, hsp]
      · rw [if_neg hacc]
        simp [hacc]
    · rw [if_neg hsp]
      rw [ih]
      simp [hsp]

theorem pySplitAux_words_ne_nil :
    ∀ (l acc : List Char) (w : List Char), w ∈ pySplitAux l acc → w ≠ [] := by
  intro l
  induction l with
  | nil =>
    intro acc w hw
    rw [pySplitAux] at hw
    by_cases hacc : acc = []
    · rw [if_pos hacc] at hw
      cases hw
    · rw [if_neg hacc] at hw
      rcases List.mem_singleton.mp hw with rfl
      simpa using hacc
  | cons c rest ih =>
    intro acc w hw
    rw [pySplitAux] at hw
    by_cases hsp : isPySpace c
    · rw [if_pos hsp] at hw
      by_cases hacc : acc = []
      · rw [if_pos hacc] at hw
        exact ih [] w hw
      · rw [if_neg hacc] at hw
        rcases List.mem_cons.mp hw with h | h
        · rw [h]
          simpa using hacc
        · exact ih [] w h
    · rw [if_neg hsp] at hw
      exact ih (c :: acc) w hw

theorem pyNormalize_eq_nil_of_space {t : List Char} (h : ∀ c ∈ t, isPySpace c = true) :
    pyNormalize t = [] := by
  have hsplit : pySplit (t.map pyLower) = [] := by
    rw [pySplit, pySplitAux_eq_nil]
    refine ⟨rfl, ?_⟩
    intro c hc
    rcases List.mem_map.mp hc with ⟨d, hd, rfl⟩
    rw [isPySpace_pyLower]
    exact h d hd
  rw [pyNormalize, hsplit]
  rfl

theorem pyNormalize_ne_nil {t : List Char} (c : Char) (hc : c ∈ t)
    (hns : isPySpace c = false) : pyNormalize t ≠ [] := by
  have hsplit : pySplit (t.map pyLower) ≠ [] := by
    rw [pySplit]
    intro hnil
    have := (pySplitAux_eq_nil (t.map pyLower) []).mp hnil
    have hmem : pyLower c ∈ t.map pyLower := List.mem_map.mpr ⟨c, hc, rfl⟩
    have := this.2 (pyLower c) hmem
    rw [isPySpace_pyLower, hns] at this
    cases this
  rcases hw : pySplit (t.map pyLower) with _ | ⟨w, ws⟩
  · exact absurd hw hsplit
  · have hwne : w ≠ [] := pySplitAux_words_ne_nil (t.map pyLower) [] w (by
      rw [pySplit] at hw
      rw [hw]
      exact List.mem_cons_self w ws)
    rw [pyNormalize, pySplit] at *
    rw [hw]
    cases ws with
    | nil => simpa [List.intercalate, List.intersperse] using hwne
    | cons w2 ws2 =>
      simp only [List.intercalate, List.intersperse, List.flatten, ne_eq,
        List.append_eq_nil]
      intro hweq
      exact absurd hweq.1 hwne

theorem smRatio_nil_left {t : List Char} (ht : t ≠ []) : smRatio [] t = 0 := by
  have hm : matchSum [] t 0 (List.length ([] : List Char)) 0 t.length = 0 := rfl
  rw [smRatio, hm, calculateRatio]
  rw [if_pos (by simpa using ht)]
  simp

theorem fuzzy_match_space_space {q e : List Char} (hq : q ≠ []) (he : e ≠ [])
    (hqs : ∀ c ∈ q, isPySpace c = true) (hes : ∀ c ∈ e, isPySpace c = true) :
    fuzzy_match q e = 1 := by
  rw [fuzzy_match, if_neg (by simp [hq, he])]
  rw [pyNormalize_eq_nil_of_space hqs, pyNormalize_eq_nil_of_space hes]
  rfl

theorem fuzzy_match_space_other {q e : List Char} (hqs : ∀ c ∈ q, isPySpace c = true)
    (c : Char) (hc : c ∈ e) (hcn : isPySpace c = false) :
    fuzzy_match q e = 0 := by
  by_cases hq : q = []
  · rw [fuzzy_match, if_pos (Or.inl hq)]
  · have he : e ≠ [] := by
      intro hnil
      rw [hnil] at hc
      cases hc
    rw [fuzzy_match, if_neg (by simp [hq, he])]
    rw [pyNormalize_eq_nil_of_space hqs]
    exact smRatio_nil_left (pyNormalize_ne_nil c hc hcn)

theorem isDupScan_append_low {q : List Char} {th : ℚ} :
    ∀ (pre rest : List (List Char)), (∀ p ∈ pre, ¬ th ≤ fuzzy_match q p) →
      isDupScan q th (pre ++ rest) = isDupScan q th rest := by
  intro pre
  induction pre with
  | nil => intro rest _; rfl
  | cons p pre ih =>
    intro rest hlow
    rw [List.cons_append, isDupScan,
      if_neg (hlow p (List.mem_cons_self p pre))]
    exact ih rest (fun x hx => hlow x (List.mem_cons_of_mem p hx))

/-- C10 (confirmed): `fuzzy_match` returns `1.0` on any two non-empty
whitespace-only strings (both normalize to the empty string, whose ratio
is `1.0`); consequently at the default threshold `0.95`,
`is_duplicate_question` reports a non-empty whitespace-only question as a
duplicate of the first non-empty whitespace-only entry of the history
(earlier entries are empty or contain a non-whitespace character and score
`0.0`). -/
theorem C10_whitespace_only_duplicate (q : List Char) (hq : q ≠ [])
    (hqs : ∀ c ∈ q, isPySpace c = true) :
    (∀ e, e ≠ [] → (∀ c ∈ e, isPySpace c = true) → fuzzy_match q e = 1) ∧
    (∀ (pre post : List (List Char)) (e : List Char), e ≠ [] →
      (∀ c ∈ e, isPySpace c = true) →
      (∀ p ∈ pre, p = [] ∨ ∃ c ∈ p, isPySpace c = false) →
      is_duplicate_question q (pre ++ e :: post) (mkRat 95 100) = (true, some e, 1)) := by
  constructor
  · intro e he hes
    exact fuzzy_match_space_space hq he hqs hes
  · intro pre post e he hes hpre
    rw [is_duplicate_question, if_neg (by
      simp only [not_or]
      exact ⟨hq, by simp⟩)]
    rw [isDupScan_append_low pre (e :: post) (by
      intro p hp
      rcases hpre p hp with h | ⟨c, hc, hcn⟩
      · rw [h, fuzzy_match, if_pos (Or.inr rfl)]
        decide
      · rw [fuzzy_match_space_other hqs c hc hcn]
        decide)]
    rw [isDupScan, if_pos (by
      rw [fuzzy_match_space_space hq he hqs hes]
      decide)]
    rw [fuzzy_match_space_space hq he hqs hes]

/-- Witness for `C10_whitespace_only_duplicate`: question `" "`, history
`["xy", "", "\t ", "z"]`. -/
theorem C10_witness :
    fuzzy_match " ".toList "\t ".toList = 1 ∧
      is_duplicate_question " ".toList
        ["xy".toList, [], "\t ".toList, "z".toList] (mkRat 95 100) =
        (true, some "\t ".toList, 1) := by
  have h := C10_whitespace_only_duplicate " ".toList (by decide) (by decide)
  refine ⟨h.1 "\t ".toList (by decide) (by decide), ?_⟩
  have h2 := h.2 ["xy".toList, []] ["z".toList] "\t ".toList (by decide) (by decide)
    (by
      intro p hp
      rcases List.mem_cons.mp hp with rfl | hp2
      · right
        exact ⟨'x', by decide, by decide⟩
      · rcases List.mem_singleton.mp hp2 with rfl
        left
        rfl)
  exact h2

/-! ### `ratio(t, t) = 1`: the best DP block of a self-comparison is
diagonal, and the extension loops then grow it to the whole string. -/

theorem mem_b2jFull {t : List Char} {c : Char} {j : Nat} :
    j ∈ b2jFull t c ↔ j < t.length ∧ t.getD j 'x' = c := by
  rw [b2jFull]
  simp [List.mem_filter, List.mem_range]

theorem mem_b2j {t : List Char} {c : Char} {j : Nat} :
    j ∈ b2j t c ↔
      ¬(200 ≤ t.length ∧ t.length / 100 + 1 < (b2jFull t c).length) ∧
        j < t.length ∧ t.getD j 'x' = c := by
  rw [b2j]
  by_cases h : 200 ≤ t.length ∧ t.length / 100 + 1 < (b2jFull t c).length
  · rw [if_pos h]
    simp [h]
  · rw [if_neg h]
    rw [mem_b2jFull]
    simp [h]

/-- A column present in `b2j t c` is present in the map of its own
character (for a self-comparison the row and column characters agree). -/
theorem mem_b2j_self {t : List Char} {c : Char} {j : Nat} (h : j ∈ b2j t c) :
    j ∈ b2j t (t.getD j 'x') := by
  rcases mem_b2j.mp h with ⟨hpop, hlt, hchar⟩
  subst hchar
  exact mem_b2j.mpr ⟨hpop, hlt, rfl⟩

/-- For a member column `j` of row `r`'s map, the diagonal entry `r` is a
member too (`r < |t|`). -/
theorem mem_b2j_diag {t : List Char} {r j : Nat} (hr : r < t.length)
    (h : j ∈ b2j t (t.getD r 'x')) : r ∈ b2j t (t.getD r 'x') := by
  rcases mem_b2j.mp h with ⟨hpop, _, _⟩
  exact mem_b2j.mpr ⟨hpop, hr, rfl⟩

/-- Dominance along a row: every chain ending in row `r` is at most the
diagonal chain of that row (`r < |t|`). -/
theorem ell_le_diag_row (t : List Char) :
    ∀ r, r < t.length → ∀ j, ell t r j ≤ ell t r r := by
  intro r
  induction r with
  | zero =>
    intro hn0 j
    by_cases h : j ∈ b2j t (t.getD 0 'x')
    · have h0 : (0 : Nat) ∈ b2j t (t.getD 0 'x') := mem_b2j_diag hn0 h
      have e1 : ell t 0 j = 1 := by rw [ell, if_pos h]
      have e2 : ell t 0 0 = 1 := by rw [ell, if_pos h0]
      rw [e1, e2]
    · have e1 : ell t 0 j = 0 := by rw [ell, if_neg h]
      rw [e1]
      omega
  | succ r ih =>
    intro hr j
    by_cases h : j ∈ b2j t (t.getD (r + 1) 'x')
    · have hmemd : r + 1 ∈ b2j t (t.getD (r + 1) 'x') := mem_b2j_diag hr h
      have hd : ell t (r + 1) (r + 1) = ell t r r + 1 := by
        rw [ell, if_pos hmemd, if_neg (by omega)]
        norm_num
      by_cases hj : j = 0
      · have e1 : ell t (r + 1) j = 1 := by rw [ell, if_pos h, if_pos hj]
        rw [e1, hd]
        omega
      · have e1 : ell t (r + 1) j = ell t r (j - 1) + 1 := by
          rw [ell, if_pos h, if_neg hj]
        rw [e1, hd]
        have := ih (by omega) (j - 1)
        omega
    · have e1 : ell t (r + 1) j = 0 := by rw [ell, if_neg h]
      rw [e1]
      omega

/-- Dominance along a column: every chain ending in column `j` is at most
the diagonal chain of row `j`. -/
theorem ell_le_diag_col (t : List Char) :
    ∀ r j, ell t r j ≤ ell t j j := by
  intro r
  induction r with
  | zero =>
    intro j
    by_cases h : j ∈ b2j t (t.getD 0 'x')
    · have hj : j ∈ b2j t (t.getD j 'x') := mem_b2j_self h
      have e1 : ell t 0 j = 1 := by rw [ell, if_pos h]
      rw [e1]
      cases j with
      | zero =>
        have e2 : ell t 0 0 = 1 := by rw [ell, if_pos hj]
        rw [e2]
      | succ m =>
        have e2 : ell t (m + 1) (m + 1) = ell t m m + 1 := by
          rw [ell, if_pos hj, if_neg (by omega)]
          norm_num
        rw [e2]
        omega
    · have e1 : ell t 0 j = 0 := by rw [ell, if_neg h]
      rw [e1]
      omega
  | succ r ih =>
    intro j
    by_cases h : j ∈ b2j t (t.getD (r + 1) 'x')
    · have hjmem : j ∈ b2j t (t.getD j 'x') := mem_b2j_self h
      cases j with
      | zero =>
        have e1 : ell t (r + 1) 0 = 1 := by rw [ell, if_pos h, if_pos rfl]
        have e2 : ell t 0 0 = 1 := by rw [ell, if_pos hjmem]
        rw [e1, e2]
      | succ m =>
        have e1 : ell t (r + 1) (m + 1) = ell t r m + 1 := by
          rw [ell, if_pos h, if_neg (by omega)]
          norm_num
        have e2 : ell t (m + 1) (m + 1) = ell t m m + 1 := by
          rw [ell, if_pos hjmem, if_neg (by omega)]
          norm_num
        rw [e1, e2]
        have := ih m
        omega
    · have e1 : ell t (r + 1) j = 0 := by rw [ell, if_neg h]
      rw [e1]
      omega

/-- Row invariant for a self-comparison: processing one row of the DP
keeps the best block diagonal, establishes dominance of the best size over
all diagonal chains up to this row, and leaves `newj2len` equal to the
chain lengths `ell` of this row. -/
theorem flmRow_diag (t : List Char) (r : Nat) (hr : r < t.length)
    (j2len : Int → Nat)
    (hprev : ∀ j : Nat, j ∈ b2j t (t.getD r 'x') → j2len ((j : Int) - 1) + 1 = ell t r j) :
    ∀ (js : List Nat) (acc : Int → Nat) (best : Nat × Nat × Nat),
      (∀ j ∈ js, j ∈ b2j t (t.getD r 'x')) →
      List.Pairwise (· < ·) js →
      (∀ jz : Int, jz < 0 → acc jz = 0) →
      (∀ m : Nat, acc (m : Int) = ell t r m ∨ (acc (m : Int) = 0 ∧ m ∈ js)) →
      best.1 = best.2.1 →
      (∀ j2 < r, ell t j2 j2 ≤ best.2.2) →
      (r ∈ js ∨ ell t r r ≤ best.2.2) →
      ((flmRow 0 t.length r j2len js acc best).2.1 =
          (flmRow 0 t.length r j2len js acc best).2.2.1) ∧
        (∀ j2 < r, ell t j2 j2 ≤ (flmRow 0 t.length r j2len js acc best).2.2.2) ∧
        ell t r r ≤ (flmRow 0 t.length r j2len js acc best).2.2.2 ∧
        (∀ jz : Int, (flmRow 0 t.length r j2len js acc best).1 jz = ellI t r jz) := by
  intro js
  induction js with
  | nil =>
    intro acc best _ _ hneg hacc hdiag hP1 hP2
    rw [flmRow]
    refine ⟨hdiag, hP1, ?_, ?_⟩
    · rcases hP2 with h | h
      · cases h
      · exact h
    · intro jz
      rw [ellI]
      by_cases hz : 0 ≤ jz
      · rw [if_pos hz]
        rcases hacc jz.toNat with h | ⟨_, h⟩
        · rw [Int.toNat_of_nonneg hz] at h
          exact h
        · cases h
      · rw [if_neg hz]
        exact hneg jz (by omega)
  | cons j rest ih =>
    intro acc best hmem hsort hneg hacc hdiag hP1 hP2
    have hjmem : j ∈ b2j t (t.getD r 'x') := hmem j (List.mem_cons_self j rest)
    have hjlt : j < t.length := (mem_b2j.mp hjmem).2.1
    have hk : j2len ((j : Int) - 1) + 1 = ell t r j := hprev j hjmem
    rw [flmRow, if_neg (by omega), if_neg (by omega)]
    dsimp only
    have hrest : ∀ x ∈ rest, j < x := by
      intro x hx
      exact (List.pairwise_cons.mp hsort).1 x hx
    have haccnext : ∀ m : Nat,
        Function.update acc (j : Int) (j2len ((j : Int) - 1) + 1) (m : Int) = ell t r m ∨
          (Function.update acc (j : Int) (j2len ((j : Int) - 1) + 1) (m : Int) = 0 ∧
            m ∈ rest) := by
      intro m
      by_cases hmj : (m : Int) = (j : Int)
      · have : m = j := by omega
        subst this
        left
        rw [Function.update_same]
        exact hk
      · rw [Function.update_noteq hmj]
        rcases hacc m with h | ⟨h0, hmem2⟩
        · exact Or.inl h
        · right
          refine ⟨h0, ?_⟩
          rcases List.mem_cons.mp hmem2 with h | h
          · exact absurd (by rw [h]) hmj
          · exact h
    have hnegnext : ∀ jz : Int, jz < 0 →
        Function.update acc (j : Int) (j2len ((j : Int) - 1) + 1) jz = 0 := by
      intro jz hz
      rw [Function.update_noteq (by omega)]
      exact hneg jz hz
    by_cases hj : j = r
    · -- the diagonal column: an update (if any) produces a diagonal block
      subst hj
      have hrnotrest : j ∉ rest := fun hc => absurd (hrest j hc) (by omega)
      by_cases hup : best.2.2 < j2len ((j : Int) - 1) + 1
      · rw [if_pos hup]
        exact ih _ _ (fun x hx => hmem x (List.mem_cons_of_mem j hx))
          (List.pairwise_cons.mp hsort).2 hnegnext haccnext rfl
          (fun j2 hj2 => by
            show ell t j2 j2 ≤ j2len ((j : Int) - 1) + 1
            have := hP1 j2 hj2
            omega)
          (Or.inr (by
            show ell t j j ≤ j2len ((j : Int) - 1) + 1
            omega))
      · rw [if_neg hup]
        exact ih _ _ (fun x hx => hmem x (List.mem_cons_of_mem j hx))
          (List.pairwise_cons.mp hsort).2 hnegnext haccnext hdiag hP1
          (Or.inr (by rw [hk] at hup; omega))
    · -- an off-diagonal column never beats the best size
      have hnoup : ¬ best.2.2 < j2len ((j : Int) - 1) + 1 := by
        intro hup
        rw [hk] at hup
        by_cases hjr : j < r
        · have h1 : ell t r j ≤ ell t j j := ell_le_diag_col t r j
          have h2 : ell t j j ≤ best.2.2 := hP1 j hjr
          omega
        · have hrj : r < j := by omega
          have hrnot : r ∉ j :: rest := by
            intro hc
            rcases List.mem_cons.mp hc with h | h
            · omega
            · exact absurd (hrest r h) (by omega)
          have h2 : ell t r r ≤ best.2.2 := by
            rcases hP2 with h | h
            · exact absurd h hrnot
            · exact h
          have h1 : ell t r j ≤ ell t r r := ell_le_diag_row t r hr j
          omega
      rw [if_neg hnoup]
      refine ih _ _ (fun x hx => hmem x (List.mem_cons_of_mem j hx))
        (List.pairwise_cons.mp hsort).2 hnegnext haccnext hdiag hP1 ?_
      rcases hP2 with h | h
      · rcases List.mem_cons.mp h with h2 | h2
        · exact absurd h2.symm hj
        · exact Or.inl h2
      · exact Or.inr h

theorem pairwise_b2j (t : List Char) (c : Char) : List.Pairwise (· < ·) (b2j t c) := by
  rw [b2j]
  by_cases h : 200 ≤ t.length ∧ t.length / 100 + 1 < (b2jFull t c).length
  · rw [if_pos h]
    exact List.Pairwise.nil
  · rw [if_neg h]
    exact (List.pairwise_lt_range t.length).filter _

/-- Over all rows of a self-comparison the best block stays diagonal. -/
theorem flmRows_diag (t : List Char) :
    ∀ (cnt s : Nat) (j2len : Int → Nat) (best : Nat × Nat × Nat),
      s + cnt = t.length →
      (∀ j : Nat, j ∈ b2j t (t.getD s 'x') → j2len ((j : Int) - 1) + 1 = ell t s j) →
      best.1 = best.2.1 →
      (∀ j2 < s, ell t j2 j2 ≤ best.2.2) →
      (flmRows t t 0 t.length (List.range' s cnt) j2len best).2.1 =
        (flmRows t t 0 t.length (List.range' s cnt) j2len best).2.2.1 := by
  intro cnt
  induction cnt with
  | zero =>
    intro s j2len best _ _ hdiag _
    exact hdiag
  | succ n ih =>
    intro s j2len best hsn hprev hdiag hP1
    rw [List.range'_succ, flmRows]
    have hs : s < t.length := by omega
    have hrow := flmRow_diag t s hs j2len hprev (b2j t (t.getD s 'x')) (fun _ => 0) best
      (fun x hx => hx) (pairwise_b2j t _) (fun _ _ => rfl)
      (fun m => by
        by_cases hm : ell t s m = 0
        · exact Or.inl (by rw [hm])
        · right
          refine ⟨rfl, ?_⟩
          have hmem : m ∈ b2j t (t.getD s 'x') := by
            by_contra hc
            cases s with
            | zero => rw [ell, if_neg hc] at hm; exact hm rfl
            | succ sp => rw [ell, if_neg hc] at hm; exact hm rfl
          exact hmem)
      hdiag hP1
      (by
        by_cases hpop : s ∈ b2j t (t.getD s 'x')
        · exact Or.inl hpop
        · right
          have : ell t s s = 0 := by
            cases s with
            | zero => rw [ell, if_neg hpop]
            | succ sp => rw [ell, if_neg hpop]
          omega)
    refine ih (s + 1) _ _ (by omega) ?_ hrow.1 ?_
    · intro j hj
      rw [hrow.2.2.2 ((j : Int) - 1)]
      rcases mem_b2j.mp hj with ⟨_, hjlt, _⟩
      by_cases hj0 : j = 0
      · subst hj0
        rw [ellI, if_neg (by omega), ell, if_pos hj, if_pos rfl]
      · rw [ellI, if_pos (by omega)]
        have hcast : ((j : Int) - 1).toNat = j - 1 := by omega
        rw [hcast]
        rw [ell, if_pos hj, if_neg hj0]
    · intro j2 hj2
      by_cases hlt : j2 < s
      · exact le_trans (hrow.2.1 j2 hlt) (le_refl _)
      · have : j2 = s := by omega
        subst this
        exact hrow.2.2.1

theorem extendBack_self (t : List Char) :
    ∀ d k, extendBack t t 0 0 d d k = (0, 0, d + k) := by
  intro d
  induction d with
  | zero =>
    intro k
    show (0, 0, k) = (0, 0, 0 + k)
    norm_num
  | succ m ih =>
    intro k
    rw [extendBack, if_pos (by refine ⟨by omega, by omega, rfl, rfl⟩)]
    have e1 : m + 1 - 1 = m := rfl
    rw [e1, ih (k + 1)]
    have e2 : m + (k + 1) = m + 1 + k := by omega
    rw [e2]

theorem extendFwdGo_self (t : List Char) (n : Nat) :
    ∀ gas s, s + gas = n → extendFwdGo t t n n 0 0 gas s = n := by
  intro gas
  induction gas with
  | zero => intro s hs; rw [extendFwdGo]; omega
  | succ m ih =>
    intro s hs
    rw [extendFwdGo, if_pos (by
      refine ⟨by omega, by omega, rfl, rfl⟩)]
    exact ih (s + 1) (by omega)

/-- For a self-comparison, `find_longest_match` over the full ranges
returns the whole string. -/
theorem find_longest_match_self (t : List Char) :
    find_longest_match t t 0 t.length 0 t.length = (0, 0, t.length) := by
  rw [find_longest_match]
  have hdiag := flmRows_diag t (t.length - 0) 0 (fun _ => 0) (0, 0, 0)
    (by omega)
    (by
      intro j hj
      rw [ell, if_pos hj])
    rfl (fun j2 hj2 => by omega)
  have hbounds := flmRows_inv t t 0 t.length 0 (t.length - 0) 0 (fun _ => 0) (0, 0, 0)
    (le_refl 0) (fun jz => Or.inl rfl) (Or.inl rfl)
  set p := flmRows t t 0 t.length (List.range' 0 (t.length - 0)) (fun _ => 0) (0, 0, 0)
    with hp
  have hdd : p.2.1 = p.2.2.1 := hdiag
  have hdk : p.2.1 + p.2.2.2 ≤ t.length := by
    rcases hbounds with h | h
    · rw [h]
      simp
    · have := h.2.2.1
      omega
  rw [← hdd]
  rw [extendBack_self t p.2.1 p.2.2.2]
  dsimp only
  rw [extendFwd, extendFwdGo_self t t.length _ _ (by omega)]
  rw [extendBackJunk_eq, extendFwdJunk_eq]

theorem matchSum_self (t : List Char) : matchSum t t 0 t.length 0 t.length = t.length := by
  rw [matchSum, Nat.sub_zero]
  cases hn : t.length with
  | zero => rfl
  | succ m =>
    have hf : find_longest_match t t 0 (m + 1) 0 (m + 1) = (0, 0, m + 1) := by
      have := find_longest_match_self t
      rw [hn] at this
      exact this
    rw [matchSumGo, hf]
    dsimp only
    rw [if_neg (by omega), if_neg (by omega), if_neg (by omega)]

theorem smRatio_self (t : List Char) : smRatio t t = 1 := by
  rw [smRatio, matchSum_self, calculateRatio]
  by_cases h : t.length + t.length ≠ 0
  · rw [if_pos h, Rat.divInt_eq_div]
    rw [div_eq_one_iff_eq (by
      intro hc
      exact h (by exact_mod_cast hc))]
    push_cast
    ring
  · rw [if_neg h]

theorem fuzzy_match_self {a : List Char} (ha : a ≠ []) : fuzzy_match a a = 1 := by
  rw [fuzzy_match, if_neg (by simp [ha])]
  exact smRatio_self _

/-- C8 (corrected): `fuzzy_match(a, a) = 1.0` for every non-empty string
`a`, but `fuzzy_match` is NOT symmetric up to rounding: the exact values
on `("abab", "baab")` are `1/2` one way and `3/4` the other (a difference
of `1/4`, far beyond floating-point rounding). -/
theorem C8_identity_and_asymmetry :
    (∀ a : List Char, a ≠ [] → fuzzy_match a a = 1) ∧
      fuzzy_match "abab".toList "baab".toList = mkRat 1 2 ∧
      fuzzy_match "baab".toList "abab".toList = mkRat 3 4 ∧
      fuzzy_match "abab".toList "baab".toList ≠ fuzzy_match "baab".toList "abab".toList :=
  ⟨fun _ ha => fuzzy_match_self ha, by decide, by decide, by decide⟩

/-- C8 counterexample: symmetry fails beyond rounding on `("abab",
"baab")`: `0.5` one way, `0.75` the other. -/
theorem C8_counterexample :
    fuzzy_match "abab".toList "baab".toList ≠ fuzzy_match "baab".toList "abab".toList ∧
      fuzzy_match "abab".toList "baab".toList = mkRat 1 2 ∧
      fuzzy_match "baab".toList "abab".toList = mkRat 3 4 :=
  ⟨by decide, by decide, by decide⟩

/-- Witness for `C8_identity_and_asymmetry`: the identity half applied at
the non-empty string `"x"`. -/
theorem C8_witness : fuzzy_match "x".toList "x".toList = 1 :=
  C8_identity_and_asymmetry.1 "x".toList (by decide)

theorem is_duplicate_question_none {q : List Char} {th : ℚ} {hist : List (List Char)}
    (h : ∀ x ∈ hist, ¬ th ≤ fuzzy_match q x) :
    is_duplicate_question q hist th = (false, none, 0) := by
  cases hist with
  | nil => rw [is_duplicate_question, if_pos (Or.inr rfl)]
  | cons x rest =>
    by_cases hq : q = []
    · rw [is_duplicate_question, if_pos (Or.inl hq)]
    · rw [is_duplicate_question, if_neg (by simp [hq])]
      rw [isDupScan_eq, List.find?_eq_none.mpr (by
        intro y hy
        simpa using h y hy)]

/-- C7 (corrected): with a NON-EMPTY question that does not already
duplicate the supplied history, a batch of two identical pairs whose
citation resolves yields the first pair in `valid` (annotated with the
span) and the second in `rejected` as `duplicate_question` with
`duplicate_of` the shared question and similarity `1.0`; and a question of
a REJECTED pair is never added to the accumulator: a leading null-citation
pair with the same question does not make the following pair a duplicate. -/
theorem C7_within_batch_duplicates
    (pair pnull : PyDict) (q c src : List Char)
    (hist : List (List Char)) (th : ℚ)
    (hq : dget pair "query".toList = some (PyVal.str q))
    (hc : dget pair "citation".toList = some (PyVal.str c))
    (hqne : q ≠ []) (hth : th ≤ 1)
    (hfound : (compute_span c src).1 = true)
    (hnodup : ∀ x ∈ hist, ¬ th ≤ fuzzy_match q x) :
    validate_citations [pair, pair] src hist th =
        ⟨[pair ++ [("start_index".toList, PyVal.int (compute_span c src).2.1),
            ("end_index".toList, PyVal.int (compute_span c src).2.2)]],
          [pair ++ [("rejection_reason".toList, PyVal.str "duplicate_question".toList),
            ("similarity_score".toList, PyVal.rat 1),
            ("duplicate_of".toList, PyVal.str q)]]⟩ ∧
      (dget pnull "citation".toList = some PyVal.null →
        validate_citations [pnull, pair] src hist th =
          ⟨[pair ++ [("start_index".toList, PyVal.int (compute_span c src).2.1),
              ("end_index".toList, PyVal.int (compute_span c src).2.2)]],
            [pnull ++ [("rejection_reason".toList,
              PyVal.str "citation_null".toList)]]⟩) := by
  have hqget : asStr (pyGet pair "query".toList (PyVal.str [])) = q := by
    rw [pyGet, hq]
    rfl
  have hcget : pyGet pair "citation".toList (PyVal.str []) = PyVal.str c := by
    rw [pyGet, hc]
    rfl
  have hstep1 : ∀ batch : List (List Char),
      (∀ x ∈ hist ++ batch, ¬ th ≤ fuzzy_match q x) →
      ∀ rest : List PyDict,
      validate_citations_aux src hist th (pair :: rest) batch =
        ⟨(pair ++ [("start_index".toList, PyVal.int (compute_span c src).2.1),
            ("end_index".toList, PyVal.int (compute_span c src).2.2)]) ::
          (validate_citations_aux src hist th rest (batch ++ [q])).valid,
          (validate_citations_aux src hist th rest (batch ++ [q])).rejected⟩ := by
    intro batch hb rest
    rw [validate_citations_aux]
    dsimp only
    rw [hqget, hcget]
    rw [if_neg (by intro hx; cases hx)]
    have hasStr : asStr (PyVal.str c) = c := rfl
    rw [hasStr]
    rw [if_neg (by rw [hfound]; intro hx; cases hx)]
    rw [is_duplicate_question_none hb]
    rfl
  constructor
  · have hdup2 : is_duplicate_question q (hist ++ [q]) th = (true, some q, 1) := by
      rw [is_duplicate_question, if_neg (by simp [hqne])]
      rw [isDupScan_append_low hist [q] hnodup]
      rw [isDupScan, if_pos (by rw [fuzzy_match_self hqne]; exact hth)]
      rw [fuzzy_match_self hqne]
    rw [validate_citations]
    rw [hstep1 [] (by simpa using hnodup) [pair]]
    rw [validate_citations_aux]
    dsimp only
    rw [hqget, hcget]
    rw [if_neg (by intro hx; cases hx)]
    have hasStr : asStr (PyVal.str c) = c := rfl
    rw [hasStr]
    rw [if_neg (by rw [hfound]; intro hx; cases hx)]
    rw [List.nil_append, hdup2]
    rfl
  · intro hnull
    have hnget : pyGet pnull "citation".toList (PyVal.str []) = PyVal.null := by
      rw [pyGet, hnull]
      rfl
    rw [validate_citations, validate_citations_aux]
    dsimp only
    rw [hnget, if_pos rfl]
    rw [hstep1 [] (by simpa using hnodup) []]
    rfl

/-- C7 counterexample: with the identical EMPTY question (and a resolving
citation), the duplicate check is short-circuited and BOTH pairs land in
`valid` — the second is not rejected as the claim states. -/
theorem C7_counterexample :
    (validate_citations
        [[("query".toList, PyVal.str []), ("citation".toList, PyVal.str "a".toList)],
          [("query".toList, PyVal.str []), ("citation".toList, PyVal.str "a".toList)]]
        "a".toList [] (mkRat 95 100)).rejected = [] ∧
      (validate_citations
        [[("query".toList, PyVal.str []), ("citation".toList, PyVal.str "a".toList)],
          [("query".toList, PyVal.str []), ("citation".toList, PyVal.str "a".toList)]]
        "a".toList [] (mkRat 95 100)).valid.length = 2 :=
  ⟨by decide, by decide⟩

/-- Witness for `C7_within_batch_duplicates`: question `"Q"`, citation
`"sky"`, document `"The sky is blue."`, history `["other"]`. -/
theorem C7_witness :
    validate_citations
        [[("query".toList, PyVal.str "Q".toList), ("citation".toList, PyVal.str "sky".toList)],
          [("query".toList, PyVal.str "Q".toList), ("citation".toList, PyVal.str "sky".toList)]]
        "The sky is blue.".toList ["other".toList] (mkRat 95 100) =
      ⟨[[("query".toList, PyVal.str "Q".toList), ("citation".toList, PyVal.str "sky".toList)] ++
          [("start_index".toList,
            PyVal.int (compute_span "sky".toList "The sky is blue.".toList).2.1),
          ("end_index".toList,
            PyVal.int (compute_span "sky".toList "The sky is blue.".toList).2.2)]],
        [[("query".toList, PyVal.str "Q".toList), ("citation".toList, PyVal.str "sky".toList)] ++
          [("rejection_reason".toList, PyVal.str "duplicate_question".toList),
          ("similarity_score".toList, PyVal.rat 1),
          ("duplicate_of".toList, PyVal.str "Q".toList)]]⟩ ∧
      validate_citations
        [[("query".toList, PyVal.str "Q".toList), ("citation".toList, PyVal.null)],
          [("query".toList, PyVal.str "Q".toList), ("citation".toList, PyVal.str "sky".toList)]]
        "The sky is blue.".toList ["other".toList] (mkRat 95 100) =
      ⟨[[("query".toList, PyVal.str "Q".toList), ("citation".toList, PyVal.str "sky".toList)] ++
          [("start_index".toList,
            PyVal.int (compute_span "sky".toList "The sky is blue.".toList).2.1),
          ("end_index".toList,
            PyVal.int (compute_span "sky".toList "The sky is blue.".toList).2.2)]],
        [[("query".toList, PyVal.str "Q".toList), ("citation".toList, PyVal.null)] ++
          [("rejection_reason".toList, PyVal.str "citation_null".toList)]]⟩ :=
  ⟨(C7_within_batch_duplicates
      [("query".toList, PyVal.str "Q".toList), ("citation".toList, PyVal.str "sky".toList)]
      [("query".toList, PyVal.str "Q".toList), ("citation".toList, PyVal.null)]
      "Q".toList "sky".toList "The sky is blue.".toList ["other".toList] (mkRat 95 100)
      (by decide) (by decide) (by decide) (by decide) (by decide) (by decide)).1,
    (C7_within_batch_duplicates
      [("query".toList, PyVal.str "Q".toList), ("citation".toList, PyVal.str "sky".toList)]
      [("query".toList, PyVal.str "Q".toList), ("citation".toList, PyVal.null)]
      "Q".toList "sky".toList "The sky is blue.".toList ["other".toList] (mkRat 95 100)
      (by decide) (by decide) (by decide) (by decide) (by decide) (by decide)).2 (by decide)⟩

theorem renameAnswerReason_append (d1 d2 : PyDict) :
    renameAnswerReason (d1 ++ d2) = renameAnswerReason d1 ++ renameAnswerReason d2 := by
  rw [renameAnswerReason, List.map_append]
  rfl

theorem renameAnswerReason_id {d : PyDict}
    (h : ∀ kv ∈ d, kv.1 ≠ "rejection_reason".toList) : renameAnswerReason d = d := by
  rw [renameAnswerReason]
  induction d with
  | nil => rfl
  | cons kv rest ih =>
    rw [List.map_cons]
    rw [if_neg (by
      intro hc
      exact absurd hc.1 (h kv (List.mem_cons_self kv rest)))]
    rw [ih (fun x hx => h x (List.mem_cons_of_mem kv hx))]

theorem vp_vc_aux (src : List Char) (hist : List (List Char)) (th : ℚ) :
    ∀ (pairs : List PyDict) (batch : List (List Char)),
      (∀ pair ∈ pairs,
        dget pair "question".toList = none ∧
        dget pair "answer".toList = none ∧
        (∃ c, dget pair "citation".toList = some (PyVal.str c) ∧ c ≠ []) ∧
        (∀ kv ∈ pair, kv.1 ≠ "rejection_reason".toList)) →
      (validate_pairs_aux src hist th pairs batch).rejected =
          (validate_citations_aux src hist th pairs batch).rejected.map renameAnswerReason ∧
        (validate_pairs_aux src hist th pairs batch).valid =
          (validate_citations_aux src hist th pairs batch).valid.map
            (fun d => d.dropLast.dropLast) := by
  intro pairs
  induction pairs with
  | nil => intro batch _; exact ⟨rfl, rfl⟩
  | cons pair rest ih =>
    intro batch hkeys
    obtain ⟨hqnone, hanone, ⟨c, hcit, hcne⟩, hnorr⟩ :=
      hkeys pair (List.mem_cons_self pair rest)
    have hkrest := fun p hp => hkeys p (List.mem_cons_of_mem pair hp)
    have hcitv : pyGet pair "citation".toList (PyVal.str []) = PyVal.str c := by
      rw [pyGet, hcit]
      rfl
    have hans : pyGet pair "answer".toList
        (pyGet pair "citation".toList (PyVal.str [])) = PyVal.str c := by
      rw [pyGet, hanone, hcitv]
      rfl
    have hq : pyGet pair "question".toList (pyGet pair "query".toList (PyVal.str [])) =
        pyGet pair "query".toList (PyVal.str []) := by
      rw [pyGet, hqnone]
      rfl
    have hfalsy : isFalsy (PyVal.str c) = false := by
      simp [isFalsy, hcne]
    have has : asStr (PyVal.str c) = c := rfl
    rw [validate_pairs_aux, validate_citations_aux]
    dsimp only
    rw [hans, hq, hcitv, has]
    rw [if_neg (show isFalsy (PyVal.str c) = true → False by rw [hfalsy]; intro h; cases h)]
    rw [if_neg (show PyVal.str c = PyVal.null → False by intro h; cases h)]
    by_cases hspan : (compute_span c src).1 = false
    · rw [if_pos hspan, if_pos hspan]
      obtain ⟨ihr, ihv⟩ := ih batch hkrest
      refine ⟨?_, ?_⟩
      · rw [List.map_cons, ihr]
        rw [renameAnswerReason_append, renameAnswerReason_id hnorr]
        have hone : renameAnswerReason
            [("rejection_reason".toList, PyVal.str "citation_not_found".toList)] =
            [("rejection_reason".toList, PyVal.str "answer_mismatch".toList)] := by decide
        rw [hone]
      · rw [ihv]
    · rw [if_neg hspan, if_neg hspan]
      by_cases hdup : (is_duplicate_question (asStr (pyGet pair "query".toList (PyVal.str [])))
          (hist ++ batch) th).1 = true
      · rw [if_pos hdup, if_pos hdup]
        obtain ⟨ihr, ihv⟩ := ih batch hkrest
        refine ⟨?_, ?_⟩
        · rw [List.map_cons, ihr]
          rw [renameAnswerReason_append, renameAnswerReason_id hnorr]
          rw [renameAnswerReason, List.map_cons, List.map_cons, List.map_cons, List.map_nil]
          rw [if_neg (by
            intro h
            exact absurd h.2 (show ¬(PyVal.str "duplicate_question".toList =
              PyVal.str "citation_not_found".toList) by decide))]
          rw [if_neg (by
            intro h
            exact absurd h.1 (show ¬("similarity_score".toList =
              "rejection_reason".toList) by decide))]
          rw [if_neg (by
            intro h
            exact absurd h.1 (show ¬("duplicate_of".toList =
              "rejection_reason".toList) by decide))]
        · rw [ihv]
      · rw [if_neg hdup, if_neg hdup]
        obtain ⟨ihr, ihv⟩ := ih (batch ++ [asStr (pyGet pair "query".toList (PyVal.str []))])
          hkrest
        refine ⟨?_, ?_⟩
        · rw [ihr]
        · rw [List.map_cons, ihv]
          have hstrip : (pair ++ [("start_index".toList, PyVal.int (compute_span c src).2.1),
              ("end_index".toList, PyVal.int (compute_span c src).2.2)]).dropLast.dropLast =
              pair := by
            have h2 : pair ++ [("start_index".toList, PyVal.int (compute_span c src).2.1),
                ("end_index".toList, PyVal.int (compute_span c src).2.2)] =
                (pair ++ [("start_index".toList, PyVal.int (compute_span c src).2.1)]) ++
                  [("end_index".toList, PyVal.int (compute_span c src).2.2)] := by
              rw [List.append_assoc]
              rfl
            rw [h2, List.dropLast_concat, List.dropLast_concat]
          rw [hstrip]

/-- C3 (corrected): the legacy `validate_pairs` rejects a missing (falsy)
answer as `answer_missing`, and decides validity of a present answer by
EXACT SPAN matching — the same `compute_span` as the citation variant —
rejecting with `answer_mismatch` when no span resolves (not by fuzzy
similarity); ordering and duplicate-accumulation agree with
`validate_citations`: on `query`/`citation`-keyed pairs the two functions
coincide up to renaming `citation_not_found` to `answer_mismatch` and up
to the span annotation, which the legacy variant does NOT attach
(`valid.append(pair)`).  `answer_threshold` is never read. -/
theorem C3_legacy_exact_span (src : List Char) (hist : List (List Char)) (th1 th2 : ℚ) :
    (∀ (pair : PyDict) (pairs : List PyDict),
      isFalsy (pyGet pair "answer".toList (pyGet pair "citation".toList (PyVal.str []))) =
        true →
      validate_pairs (pair :: pairs) src hist th1 th2 =
        ⟨(validate_pairs pairs src hist th1 th2).valid,
          (pair ++ [("rejection_reason".toList, PyVal.str "answer_missing".toList)]) ::
            (validate_pairs pairs src hist th1 th2).rejected⟩) ∧
    (∀ (pair : PyDict) (pairs : List PyDict) (a : List Char),
      pyGet pair "answer".toList (pyGet pair "citation".toList (PyVal.str [])) =
        PyVal.str a →
      a ≠ [] →
      (compute_span a src).1 = false →
      validate_pairs (pair :: pairs) src hist th1 th2 =
        ⟨(validate_pairs pairs src hist th1 th2).valid,
          (pair ++ [("rejection_reason".toList, PyVal.str "answer_mismatch".toList)]) ::
            (validate_pairs pairs src hist th1 th2).rejected⟩) ∧
    (∀ pairs : List PyDict,
      (∀ pair ∈ pairs,
        dget pair "question".toList = none ∧
        dget pair "answer".toList = none ∧
        (∃ c, dget pair "citation".toList = some (PyVal.str c) ∧ c ≠ []) ∧
        (∀ kv ∈ pair, kv.1 ≠ "rejection_reason".toList)) →
      (validate_pairs pairs src hist th1 th2).rejected =
          (validate_citations pairs src hist th2).rejected.map renameAnswerReason ∧
        (validate_pairs pairs src hist th1 th2).valid =
          (validate_citations pairs src hist th2).valid.map
            (fun d => d.dropLast.dropLast)) := by
  refine ⟨?_, ?_, ?_⟩
  · intro pair pairs hf
    show validate_pairs_aux src hist th2 (pair :: pairs) [] = _
    rw [validate_pairs_aux]
    dsimp only
    rw [if_pos hf]
    rfl
  · intro pair pairs a hans hane hspan
    show validate_pairs_aux src hist th2 (pair :: pairs) [] = _
    rw [validate_pairs_aux]
    dsimp only
    rw [hans]
    rw [if_neg (show isFalsy (PyVal.str a) = true → False by
      simp [isFalsy, hane])]
    have has : asStr (PyVal.str a) = a := rfl
    rw [has, if_pos hspan]
    rfl
  · intro pairs hkeys
    exact vp_vc_aux src hist th2 pairs [] hkeys

/-- C3 counterexample: answer `"HELLO"` against document `"hello world"`
is valid under the spec's fuzzy (case-insensitive) matching but the code
rejects it with `answer_mismatch` — validity is not decided by fuzzy
matching. -/
theorem C3_counterexample :
    validate_pairs [[("question".toList, PyVal.str "q".toList),
        ("answer".toList, PyVal.str "HELLO".toList)]]
      "hello world".toList [] (mkRat 95 100) (mkRat 95 100) =
      ⟨[], [[("question".toList, PyVal.str "q".toList),
        ("answer".toList, PyVal.str "HELLO".toList),
        ("rejection_reason".toList, PyVal.str "answer_mismatch".toList)]]⟩ ∧
      answer_valid_spec "HELLO".toList "hello world".toList (mkRat 95 100) = true :=
  ⟨by decide, by decide⟩

/-- Witness for `C3_legacy_exact_span`: a pair with no answer, a pair with
an unresolvable answer, and a `query`/`citation` batch compared against
`validate_citations`. -/
theorem C3_witness :
    validate_pairs [[("question".toList, PyVal.str "q".toList)]] "doc".toList []
        (mkRat 95 100) (mkRat 95 100) =
      ⟨(validate_pairs [] "doc".toList [] (mkRat 95 100) (mkRat 95 100)).valid,
        ([("question".toList, PyVal.str "q".toList)] ++
          [("rejection_reason".toList, PyVal.str "answer_missing".toList)]) ::
          (validate_pairs [] "doc".toList [] (mkRat 95 100) (mkRat 95 100)).rejected⟩ ∧
      validate_pairs [[("question".toList, PyVal.str "q".toList),
          ("answer".toList, PyVal.str "zz".toList)]] "doc".toList []
        (mkRat 95 100) (mkRat 95 100) =
      ⟨(validate_pairs [] "doc".toList [] (mkRat 95 100) (mkRat 95 100)).valid,
        ([("question".toList, PyVal.str "q".toList),
          ("answer".toList, PyVal.str "zz".toList)] ++
          [("rejection_reason".toList, PyVal.str "answer_mismatch".toList)]) ::
          (validate_pairs [] "doc".toList [] (mkRat 95 100) (mkRat 95 100)).rejected⟩ ∧
      ((validate_pairs [[("query".toList, PyVal.str "Q".toList),
          ("citation".toList, PyVal.str "sky".toList)]] "The sky is blue.".toList []
          (mkRat 95 100) (mkRat 95 100)).rejected =
        (validate_citations [[("query".toList, PyVal.str "Q".toList),
          ("citation".toList, PyVal.str "sky".toList)]] "The sky is blue.".toList []
          (mkRat 95 100)).rejected.map renameAnswerReason ∧
      (validate_pairs [[("query".toList, PyVal.str "Q".toList),
          ("citation".toList, PyVal.str "sky".toList)]] "The sky is blue.".toList []
          (mkRat 95 100) (mkRat 95 100)).valid =
        (validate_citations [[("query".toList, PyVal.str "Q".toList),
          ("citation".toList, PyVal.str "sky".toList)]] "The sky is blue.".toList []
          (mkRat 95 100)).valid.map (fun d => d.dropLast.dropLast)) :=
  ⟨(C3_legacy_exact_span "doc".toList [] (mkRat 95 100) (mkRat 95 100)).1
      [("question".toList, PyVal.str "q".toList)] [] (by decide),
    (C3_legacy_exact_span "doc".toList [] (mkRat 95 100) (mkRat 95 100)).2.1
      [("question".toList, PyVal.str "q".toList),
        ("answer".toList, PyVal.str "zz".toList)] [] "zz".toList
      (by decide) (by decide) (by decide),
    (C3_legacy_exact_span "The sky is blue.".toList [] (mkRat 95 100) (mkRat 95 100)).2.2
      [[("query".toList, PyVal.str "Q".toList),
        ("citation".toList, PyVal.str "sky".toList)]]
      (by
        intro p hp
        rcases List.mem_singleton.mp hp with rfl
        exact ⟨by decide, by decide, ⟨"sky".toList, by decide, by decide⟩, by decide⟩)⟩

theorem dget_append (d kvs : PyDict) (k : List Char) :
    dget (d ++ kvs) k =
      match dget kvs k with
      | some v => some v
      | none => dget d k := by
  rw [dget, List.reverse_append, find?_append_eq, dget, dget]
  rcases h : kvs.reverse.find? (fun p => decide (p.1 = k)) with _ | x
  · rw [h]
    rfl
  · rw [h]
    rfl

theorem dget_singleton (a : List Char) (b : PyVal) (k : List Char) :
    dget [(a, b)] k = if a = k then some b else none := by
  by_cases h : a = k
  · simp [dget, List.find?, h]
  · simp [dget, List.find?, h]

theorem dget_two (a1 a2 : List Char) (b1 b2 : PyVal) (k : List Char) :
    dget [(a1, b1), (a2, b2)] k =
      if a2 = k then some b2 else if a1 = k then some b1 else none := by
  by_cases h2 : a2 = k
  · simp [dget, List.find?, h2]
  · by_cases h1 : a1 = k
    · simp [dget, List.find?, h1, h2]
    · simp [dget, List.find?, h1, h2]

theorem dget_three (a1 a2 a3 : List Char) (b1 b2 b3 : PyVal) (k : List Char) :
    dget [(a1, b1), (a2, b2), (a3, b3)] k =
      if a3 = k then some b3 else if a2 = k then some b2
        else if a1 = k then some b1 else none := by
  by_cases h3 : a3 = k
  · simp [dget, List.find?, h3]
  · by_cases h2 : a2 = k
    · simp [dget, List.find?, h2, h3]
    · by_cases h1 : a1 = k
      · simp [dget, List.find?, h1, h2, h3]
      · simp [dget, List.find?, h1, h2, h3]

theorem rejectedOK_single (reasons : List (List Char)) (p : PyDict) (X : List Char)
    (hX : X ∈ reasons) (hXd : X ≠ "duplicate_question".toList) :
    rejectedOK reasons p (p ++ [("rejection_reason".toList, PyVal.str X)]) := by
  have hrr : dget (p ++ [("rejection_reason".toList, PyVal.str X)])
      "rejection_reason".toList = some (PyVal.str X) := by
    rw [dget_append, dget_singleton, if_pos rfl]
  refine ⟨?_, ⟨X, hrr, hX⟩, ?_⟩
  · intro k hk
    rw [dget_append, dget_singleton, if_neg (by
      intro h
      exact hk (by rw [← h]; exact List.mem_cons_self _ _))]
  · intro h
    rw [hrr] at h
    cases h
    exact absurd rfl hXd

theorem rejectedOK_dup (reasons : List (List Char)) (p : PyDict) (sc : ℚ) (dq : List Char)
    (hmem : "duplicate_question".toList ∈ reasons) :
    rejectedOK reasons p
      (p ++ [("rejection_reason".toList, PyVal.str "duplicate_question".toList),
        ("similarity_score".toList, PyVal.rat sc),
        ("duplicate_of".toList, PyVal.str dq)]) := by
  have hrr : dget (p ++ [("rejection_reason".toList,
      PyVal.str "duplicate_question".toList),
      ("similarity_score".toList, PyVal.rat sc),
      ("duplicate_of".toList, PyVal.str dq)]) "rejection_reason".toList =
      some (PyVal.str "duplicate_question".toList) := by
    rw [dget_append, dget_three, if_neg (by decide), if_neg (by decide), if_pos rfl]
  have hss : dget (p ++ [("rejection_reason".toList,
      PyVal.str "duplicate_question".toList),
      ("similarity_score".toList, PyVal.rat sc),
      ("duplicate_of".toList, PyVal.str dq)]) "similarity_score".toList =
      some (PyVal.rat sc) := by
    rw [dget_append, dget_three, if_neg (by decide), if_pos rfl]
  have hdo : dget (p ++ [("rejection_reason".toList,
      PyVal.str "duplicate_question".toList),
      ("similarity_score".toList, PyVal.rat sc),
      ("duplicate_of".toList, PyVal.str dq)]) "duplicate_of".toList =
      some (PyVal.str dq) := by
    rw [dget_append, dget_three, if_pos rfl]
  refine ⟨?_, ⟨_, hrr, hmem⟩, fun _ => ⟨⟨sc, hss⟩, ⟨dq, hdo⟩⟩⟩
  intro k hk
  simp only [List.mem_cons, List.mem_singleton, not_or] at hk
  rw [dget_append, dget_three, if_neg (by intro h; exact hk.2.2.1 h.symm),
    if_neg (by intro h; exact hk.2.1 h.symm),
    if_neg (by intro h; exact hk.1 h.symm)]

theorem validOKcit_annot (src : List Char) (p : PyDict) (s e : Int)
    (hspan : compute_span (asStr (pyGet p "citation".toList (PyVal.str []))) src =
      (true, s, e)) :
    validOKcit src p (p ++ [("start_index".toList, PyVal.int s),
      ("end_index".toList, PyVal.int e)]) := by
  refine ⟨?_, s, e, hspan, ?_, ?_⟩
  · intro k hk
    simp only [List.mem_cons, List.mem_singleton, not_or] at hk
    rw [dget_append, dget_two, if_neg (by intro h; exact hk.2.1 h.symm),
      if_neg (by intro h; exact hk.1 h.symm)]
  · rw [dget_append, dget_two, if_neg (by decide), if_pos rfl]
  · rw [dget_append, dget_two, if_pos rfl]

theorem vc_partition (src : List Char) (hist : List (List Char)) (th : ℚ) :
    ∀ (pairs : List PyDict) (batch : List (List Char)),
      (validate_citations_aux src hist th pairs batch).valid.length +
        (validate_citations_aux src hist th pairs batch).rejected.length = pairs.length ∧
      (∀ r ∈ (validate_citations_aux src hist th pairs batch).rejected,
        ∃ p ∈ pairs, rejectedOK ["citation_null".toList, "citation_not_found".toList,
          "duplicate_question".toList] p r) ∧
      (∀ v ∈ (validate_citations_aux src hist th pairs batch).valid,
        ∃ p ∈ pairs, validOKcit src p v) := by
  intro pairs
  induction pairs with
  | nil =>
    intro batch
    exact ⟨rfl, fun r hr => absurd hr (by intro h; cases h),
      fun v hv => absurd hv (by intro h; cases h)⟩
  | cons pair rest ih =>
    intro batch
    rw [validate_citations_aux]
    dsimp only
    by_cases hnull : pyGet pair "citation".toList (PyVal.str []) = PyVal.null
    · rw [if_pos hnull]
      obtain ⟨ihl, ihr, ihv⟩ := ih batch
      refine ⟨by simp only [List.length_cons]; omega, ?_, ?_⟩
      · intro r hr
        rcases List.mem_cons.mp hr with h | h
        · subst h
          exact ⟨pair, List.mem_cons_self _ _,
            rejectedOK_single _ pair _ (by decide) (by decide)⟩
        · obtain ⟨p, hp, hok⟩ := ihr r h
          exact ⟨p, List.mem_cons_of_mem _ hp, hok⟩
      · intro v hv
        obtain ⟨p, hp, hok⟩ := ihv v hv
        exact ⟨p, List.mem_cons_of_mem _ hp, hok⟩
    · rw [if_neg hnull]
      rcases hsp : compute_span (asStr (pyGet pair "citation".toList (PyVal.str []))) src
        with ⟨f, s, e⟩
      dsimp only
      by_cases hf : f = false
      · rw [if_pos hf]
        obtain ⟨ihl, ihr, ihv⟩ := ih batch
        refine ⟨by simp only [List.length_cons]; omega, ?_, ?_⟩
        · intro r hr
          rcases List.mem_cons.mp hr with h | h
          · subst h
            exact ⟨pair, List.mem_cons_self _ _,
              rejectedOK_single _ pair _ (by decide) (by decide)⟩
          · obtain ⟨p, hp, hok⟩ := ihr r h
            exact ⟨p, List.mem_cons_of_mem _ hp, hok⟩
        · intro v hv
          obtain ⟨p, hp, hok⟩ := ihv v hv
          exact ⟨p, List.mem_cons_of_mem _ hp, hok⟩
      · rw [if_neg hf]
        have hft : f = true := by
          cases f
          · exact absurd rfl hf
          · rfl
        subst hft
        cases hd : (is_duplicate_question (asStr (pyGet pair "query".toList (PyVal.str [])))
            (hist ++ batch) th).1
        · rw [if_neg (by intro hx; cases hx)]
          obtain ⟨ihl, ihr, ihv⟩ :=
            ih (batch ++ [asStr (pyGet pair "query".toList (PyVal.str []))])
          refine ⟨by simp only [List.length_cons]; omega, ?_, ?_⟩
          · intro r hr
            obtain ⟨p, hp, hok⟩ := ihr r hr
            exact ⟨p, List.mem_cons_of_mem _ hp, hok⟩
          · intro v hv
            rcases List.mem_cons.mp hv with h | h
            · subst h
              exact ⟨pair, List.mem_cons_self _ _, validOKcit_annot src pair s e hsp⟩
            · obtain ⟨p, hp, hok⟩ := ihv v h
              exact ⟨p, List.mem_cons_of_mem _ hp, hok⟩
        · rw [if_pos rfl]
          obtain ⟨ihl, ihr, ihv⟩ := ih batch
          refine ⟨by simp only [List.length_cons]; omega, ?_, ?_⟩
          · intro r hr
            rcases List.mem_cons.mp hr with h | h
            · subst h
              exact ⟨pair, List.mem_cons_self _ _,
                rejectedOK_dup _ pair _ _ (by decide)⟩
            · obtain ⟨p, hp, hok⟩ := ihr r h
              exact ⟨p, List.mem_cons_of_mem _ hp, hok⟩
          · intro v hv
            obtain ⟨p, hp, hok⟩ := ihv v hv
            exact ⟨p, List.mem_cons_of_mem _ hp, hok⟩

theorem vp_partition (src : List Char) (hist : List (List Char)) (th : ℚ) :
    ∀ (pairs : List PyDict) (batch : List (List Char)),
      (validate_pairs_aux src hist th pairs batch).valid.length +
        (validate_pairs_aux src hist th pairs batch).rejected.length = pairs.length ∧
      (∀ r ∈ (validate_pairs_aux src hist th pairs batch).rejected,
        ∃ p ∈ pairs, rejectedOK ["answer_missing".toList, "answer_mismatch".toList,
          "duplicate_question".toList] p r) ∧
      (∀ v ∈ (validate_pairs_aux src hist th pairs batch).valid, v ∈ pairs) := by
  intro pairs
  induction pairs with
  | nil =>
    intro batch
    exact ⟨rfl, fun r hr => absurd hr (by intro h; cases h),
      fun v hv => absurd hv (by intro h; cases h)⟩
  | cons pair rest ih =>
    intro batch
    rw [validate_pairs_aux]
    dsimp only
    by_cases hmiss : isFalsy (pyGet pair "answer".toList
        (pyGet pair "citation".toList (PyVal.str []))) = true
    · rw [if_pos hmiss]
      obtain ⟨ihl, ihr, ihv⟩ := ih batch
      refine ⟨by simp only [List.length_cons]; omega, ?_, ?_⟩
      · intro r hr
        rcases List.mem_cons.mp hr with h | h
        · subst h
          exact ⟨pair, List.mem_cons_self _ _,
            rejectedOK_single _ pair _ (by decide) (by decide)⟩
        · obtain ⟨p, hp, hok⟩ := ihr r h
          exact ⟨p, List.mem_cons_of_mem _ hp, hok⟩
      · intro v hv
        exact List.mem_cons_of_mem _ (ihv v hv)
    · rw [if_neg hmiss]
      by_cases hf : (compute_span (asStr (pyGet pair "answer".toList
          (pyGet pair "citation".toList (PyVal.str [])))) src).1 = false
      · rw [if_pos hf]
        obtain ⟨ihl, ihr, ihv⟩ := ih batch
        refine ⟨by simp only [List.length_cons]; omega, ?_, ?_⟩
        · intro r hr
          rcases List.mem_cons.mp hr with h | h
          · subst h
            exact ⟨pair, List.mem_cons_self _ _,
              rejectedOK_single _ pair _ (by decide) (by decide)⟩
          · obtain ⟨p, hp, hok⟩ := ihr r h
            exact ⟨p, List.mem_cons_of_mem _ hp, hok⟩
        · intro v hv
          exact List.mem_cons_of_mem _ (ihv v hv)
      · rw [if_neg hf]
        cases hd : (is_duplicate_question
            (asStr (pyGet pair "question".toList (pyGet pair "query".toList (PyVal.str []))))
            (hist ++ batch) th).1
        · rw [if_neg (by intro hx; cases hx)]
          obtain ⟨ihl, ihr, ihv⟩ := ih (batch ++
            [asStr (pyGet pair "question".toList (pyGet pair "query".toList (PyVal.str [])))])
          refine ⟨by simp only [List.length_cons]; omega, ?_, ?_⟩
          · intro r hr
            obtain ⟨p, hp, hok⟩ := ihr r hr
            exact ⟨p, List.mem_cons_of_mem _ hp, hok⟩
          · intro v hv
            rcases List.mem_cons.mp hv with h | h
            · subst h
              exact List.mem_cons_self _ _
            · exact List.mem_cons_of_mem _ (ihv v h)
        · rw [if_pos rfl]
          obtain ⟨ihl, ihr, ihv⟩ := ih batch
          refine ⟨by simp only [List.length_cons]; omega, ?_, ?_⟩
          · intro r hr
            rcases List.mem_cons.mp hr with h | h
            · subst h
              exact ⟨pair, List.mem_cons_self _ _,
                rejectedOK_dup _ pair _ _ (by decide)⟩
            · obtain ⟨p, hp, hok⟩ := ihr r h
              exact ⟨p, List.mem_cons_of_mem _ hp, hok⟩
          · intro v hv
            exact List.mem_cons_of_mem _ (ihv v hv)

/-- C4 (corrected): in both variants every input pair yields exactly one
output entry (`|valid| + |rejected| = |pairs|`); every rejected entry
retains all fields of its source pair except the annotations and carries
a `rejection_reason` from the variant's reason set, with
`similarity_score` and `duplicate_of` added exactly for duplicates; in
the citation variant every valid entry retains its source pair's fields
plus `start_index`/`end_index` from the resolved span of its citation.
The spec's claim that valid pairs carry `start_index`/`end_index` in the
legacy variant as well is wrong: legacy `validate_pairs` appends the
original pair unannotated (`valid.append(pair)`). -/
theorem C4_partition_and_retention (pairs : List PyDict) (src : List Char)
    (hist : List (List Char)) (ath th : ℚ) :
    ((validate_citations pairs src hist th).valid.length +
        (validate_citations pairs src hist th).rejected.length = pairs.length ∧
      (∀ r ∈ (validate_citations pairs src hist th).rejected,
        ∃ p ∈ pairs, rejectedOK ["citation_null".toList, "citation_not_found".toList,
          "duplicate_question".toList] p r) ∧
      (∀ v ∈ (validate_citations pairs src hist th).valid,
        ∃ p ∈ pairs, validOKcit src p v)) ∧
    ((validate_pairs pairs src hist ath th).valid.length +
        (validate_pairs pairs src hist ath th).rejected.length = pairs.length ∧
      (∀ r ∈ (validate_pairs pairs src hist ath th).rejected,
        ∃ p ∈ pairs, rejectedOK ["answer_missing".toList, "answer_mismatch".toList,
          "duplicate_question".toList] p r) ∧
      (∀ v ∈ (validate_pairs pairs src hist ath th).valid, v ∈ pairs)) :=
  ⟨vc_partition src hist th pairs [], vp_partition src hist th pairs []⟩

/-- C4 counterexample: the legacy variant accepts
`{'question': 'q', 'answer': 'a'}` against source `"a"` but returns the
pair unannotated — there is no `start_index` key on the valid entry. -/
theorem C4_counterexample :
    (validate_pairs [[("question".toList, PyVal.str "q".toList),
        ("answer".toList, PyVal.str "a".toList)]] "a".toList []
        (mkRat 95 100) (mkRat 95 100)).valid =
      [[("question".toList, PyVal.str "q".toList),
        ("answer".toList, PyVal.str "a".toList)]] ∧
    dget [("question".toList, PyVal.str "q".toList),
        ("answer".toList, PyVal.str "a".toList)] "start_index".toList = none ∧
    dget [("question".toList, PyVal.str "q".toList),
        ("answer".toList, PyVal.str "a".toList)] "end_index".toList = none := by
  refine ⟨?_, by decide, by decide⟩
  decide

/-- C4 witness: on the batch `[{'query': 'q1', 'citation': None},
{'query': 'q2', 'citation': 'a'}]` against source `"a"`, the partition
theorem yields the annotated rejected and valid entries of the citation
variant and the unannotated valid entry of the legacy variant. -/
theorem C4_witness :
    (∃ p ∈ ([[("query".toList, PyVal.str "q1".toList), ("citation".toList, PyVal.null)],
        [("query".toList, PyVal.str "q2".toList),
          ("citation".toList, PyVal.str "a".toList)]] : List PyDict),
      rejectedOK ["citation_null".toList, "citation_not_found".toList,
          "duplicate_question".toList] p
        ([("query".toList, PyVal.str "q1".toList), ("citation".toList, PyVal.null)] ++
          [("rejection_reason".toList, PyVal.str "citation_null".toList)])) ∧
    (∃ p ∈ ([[("query".toList, PyVal.str "q1".toList), ("citation".toList, PyVal.null)],
        [("query".toList, PyVal.str "q2".toList),
          ("citation".toList, PyVal.str "a".toList)]] : List PyDict),
      validOKcit "a".toList p
        ([("query".toList, PyVal.str "q2".toList),
            ("citation".toList, PyVal.str "a".toList)] ++
          [("start_index".toList, PyVal.int 0), ("end_index".toList, PyVal.int 1)])) ∧
    [("question".toList, PyVal.str "q".toList),
        ("answer".toList, PyVal.str "a".toList)] ∈
      ([[("question".toList, PyVal.str "q".toList),
        ("answer".toList, PyVal.str "a".toList)]] : List PyDict) := by
  refine ⟨?_, ?_, ?_⟩
  · exact (C4_partition_and_retention
      [[("query".toList, PyVal.str "q1".toList), ("citation".toList, PyVal.null)],
        [("query".toList, PyVal.str "q2".toList),
          ("citation".toList, PyVal.str "a".toList)]]
      "a".toList [] (mkRat 95 100) (mkRat 95 100)).1.2.1 _ (by decide)
  · exact (C4_partition_and_retention
      [[("query".toList, PyVal.str "q1".toList), ("citation".toList, PyVal.null)],
        [("query".toList, PyVal.str "q2".toList),
          ("citation".toList, PyVal.str "a".toList)]]
      "a".toList [] (mkRat 95 100) (mkRat 95 100)).1.2.2 _ (by decide)
  · exact (C4_partition_and_retention
      [[("question".toList, PyVal.str "q".toList),
        ("answer".toList, PyVal.str "a".toList)]]
      "a".toList [] (mkRat 95 100) (mkRat 95 100)).2.2.2 _ (by decide)

theorem take_succ_of_drop {α : Type} (l : List α) (n : Nat) (c : α) (r : List α)
    (h : l.drop n = c :: r) : l.take (n + 1) = l.take n ++ [c] := by
  induction n generalizing l with
  | zero =>
    simp only [List.drop_zero] at h
    subst h
    rfl
  | succ m ih =>
    cases l with
    | nil => simp at h
    | cons a l' =>
      simp only [List.drop_succ_cons] at h
      simp only [List.take_succ_cons, ih l' h, List.cons_append]

theorem getD_of_drop (l : List Char) (n : Nat) (c : Char) (r : List Char)
    (h : l.drop n = c :: r) : l.getD n 'x' = c := by
  induction n generalizing l with
  | zero =>
    simp only [List.drop_zero] at h
    subst h
    rfl
  | succ m ih =>
    cases l with
    | nil => simp at h
    | cons a l' =>
      simp only [List.drop_succ_cons] at h
      simpa using ih l' h

theorem drop_succ_of_drop {α : Type} (l : List α) (n : Nat) (c : α) (r : List α)
    (h : l.drop n = c :: r) : l.drop (n + 1) = r := by
  have h1 : (l.drop n).drop 1 = l.drop (n + 1) := by
    rw [List.drop_drop]
  rw [← h1, h]
  rfl

theorem lt_length_of_drop {α : Type} (l : List α) (n : Nat) (c : α) (r : List α)
    (h : l.drop n = c :: r) : n < l.length := by
  by_contra hn
  rw [List.drop_eq_nil_of_le (Nat.le_of_not_lt hn)] at h
  cases h

theorem take_shift_succ {α : Type} (source : List α) (s i : Nat) (c : α) (r : List α)
    (hs : s ≤ i) (h : source.drop i = c :: r) :
    (source.drop s).take (i + 1 - s) = (source.drop s).take (i - s) ++ [c] := by
  have hd : (source.drop s).drop (i - s) = c :: r := by
    rw [List.drop_drop]
    rw [show s + (i - s) = i from by omega]
    exact h
  have := take_succ_of_drop (source.drop s) (i - s) c r hd
  rw [show i + 1 - s = i - s + 1 by omega]
  exact this

theorem stateAfter_snoc (b : Bool) (p : List Char) (c : Char) :
    stateAfter b (p ++ [c]) = isPySpace c := by
  induction p generalizing b with
  | nil => rfl
  | cons d p' ih => exact ih (isPySpace d)

theorem collapseAux_snoc (b : Bool) (p : List Char) (c : Char) :
    collapseAux b (p ++ [c]) = collapseAux b p ++
      (if isPySpace c = true then (if stateAfter b p = true then [] else [' '])
        else [c]) := by
  induction p generalizing b with
  | nil =>
    cases hc : isPySpace c <;> cases b <;> simp [collapseAux, stateAfter, hc]
  | cons d p' ih =>
    simp only [List.cons_append, collapseAux, stateAfter]
    by_cases hd : isPySpace d = true
    · cases b <;> simp [hd, ih]
    · have hd' : isPySpace d = false := by simpa using hd
      cases b <;> simp [hd', ih]

theorem dropWhile_collapseAux (b : Bool) (l : List Char) :
    (collapseAux b l).dropWhile isPySpace = collapseAux true l := by
  induction l generalizing b with
  | nil => rfl
  | cons c r ih =>
    by_cases hc : isPySpace c = true
    · cases b <;>
        simp [collapseAux, hc, ih, List.dropWhile_cons,
          show isPySpace ' ' = true from by decide]
    · have hc' : isPySpace c = false := by simpa using hc
      simp [collapseAux, hc', List.dropWhile_cons]

theorem collapseAux_true_dropWhile (l : List Char) :
    collapseAux true l = collapseAux false (l.dropWhile isPySpace) := by
  induction l with
  | nil => rfl
  | cons c r ih =>
    by_cases hc : isPySpace c = true
    · simp [collapseAux, hc, ih, List.dropWhile_cons]
    · have hc' : isPySpace c = false := by simpa using hc
      simp [collapseAux, hc', List.dropWhile_cons]

theorem stripR_snoc_space (x : List Char) (c : Char) (hc : isPySpace c = true) :
    stripR (x ++ [c]) = stripR x := by
  simp [stripR, List.dropWhile_cons, hc]

theorem stripR_snoc_nonspace (x : List Char) (c : Char) (hc : isPySpace c = false) :
    stripR (x ++ [c]) = x ++ [c] := by
  simp [stripR, List.dropWhile_cons, hc]

theorem stripR_collapseAux (b : Bool) (m : List Char) :
    stripR (collapseAux b m) = collapseAux b (stripR m) := by
  induction m using List.reverseRecOn generalizing b with
  | nil => rfl
  | append_singleton m' c ih =>
    by_cases hc : isPySpace c = true
    · rw [collapseAux_snoc, if_pos hc, stripR_snoc_space m' c hc]
      by_cases hs : stateAfter b m' = true
      · rw [if_pos hs, List.append_nil, ih]
      · rw [if_neg hs, stripR_snoc_space _ ' ' (by decide), ih]
    · have hc' : isPySpace c = false := by simpa using hc
      rw [collapseAux_snoc, if_neg hc, stripR_snoc_nonspace (collapseAux b m') c hc',
        stripR_snoc_nonspace m' c hc', collapseAux_snoc, if_neg hc]

theorem dropWhile_idem (l : List Char) :
    (l.dropWhile isPySpace).dropWhile isPySpace = l.dropWhile isPySpace := by
  induction l with
  | nil => rfl
  | cons c r ih =>
    by_cases hc : isPySpace c = true
    · simp [List.dropWhile_cons, hc, ih]
    · have hc' : isPySpace c = false := by simpa using hc
      simp [List.dropWhile_cons, hc']

theorem stripR_idem (x : List Char) : stripR (stripR x) = stripR x := by
  simp only [stripR, List.reverse_reverse, dropWhile_idem]

theorem pyStrip_eq_stripR (s : List Char) :
    pyStrip s = stripR (s.dropWhile isPySpace) := rfl

theorem pyStrip_collapseAux (b : Bool) (l : List Char) :
    pyStrip (collapseAux b l) = collapseWS (pyStrip l) := by
  rw [pyStrip_eq_stripR, dropWhile_collapseAux, collapseAux_true_dropWhile,
    stripR_collapseAux, collapseWS, pyStrip_eq_stripR]

theorem dropWhile_head_false (l : List Char) (c : Char) (r : List Char)
    (h : l.dropWhile isPySpace = c :: r) : isPySpace c = false := by
  induction l with
  | nil => cases h
  | cons d l' ih =>
    rw [List.dropWhile_cons] at h
    by_cases hd : isPySpace d = true
    · rw [if_pos hd] at h
      exact ih h
    · rw [if_neg hd] at h
      cases h
      simpa using hd

theorem dropWhile_stripR (c : Char) (r : List Char) (hc : isPySpace c = false) :
    (stripR (c :: r)).dropWhile isPySpace = stripR (c :: r) := by
  have h1 : stripR (c :: r) =
      if (r.reverse.dropWhile isPySpace).isEmpty = true then [c]
      else c :: (r.reverse.dropWhile isPySpace).reverse := by
    rw [stripR, show (c :: r).reverse = r.reverse ++ [c] from by simp,
      List.dropWhile_append]
    by_cases he : (r.reverse.dropWhile isPySpace).isEmpty = true
    · rw [if_pos he, if_pos he]
      simp [List.dropWhile_cons, hc]
    · rw [if_neg he, if_neg he]
      simp
  rw [h1]
  by_cases he : (r.reverse.dropWhile isPySpace).isEmpty = true
  · rw [if_pos he]
    simp [List.dropWhile_cons, hc]
  · rw [if_neg he]
    simp [List.dropWhile_cons, hc]

theorem pyStrip_idem (s : List Char) : pyStrip (pyStrip s) = pyStrip s := by
  rw [pyStrip_eq_stripR (pyStrip s), pyStrip_eq_stripR s]
  cases hu : s.dropWhile isPySpace with
  | nil => rfl
  | cons c r =>
    have hc : isPySpace c = false := dropWhile_head_false s c r hu
    rw [dropWhile_stripR c r hc, stripR_idem]

theorem pyStrip_collapse_strip (cit : List Char) :
    pyStrip (collapseWS (pyStrip cit)) = collapseWS (pyStrip cit) := by
  rw [collapseWS, pyStrip_collapseAux false (pyStrip cit), pyStrip_idem]
  rfl

/-- Invariant-carrying specification of the back-mapping walk: starting from
any reachable state, `spanWalk` produces an original-offset window whose
collapse (in the state left by `ns[:idx]`) is exactly the matched
normalized window `ns[idx : idx + |nc|] = nc`. -/
theorem spanWalk_slice (source ns nc : List Char) (idx : Nat)
    (hmatch : (ns.drop idx).take nc.length = nc)
    (hidx : idx < ns.length)
    (hstop : idx + nc.length ≤ ns.length) :
    ∀ (rest : List Char) (i np : Nat) (os : Option Nat),
      rest = source.drop i →
      i ≤ source.length →
      np ≤ idx + nc.length →
      collapseAux (decide (0 < np ∧ ns.getD (np - 1) 'x' = ' ')) rest = ns.drop np →
      ((np ≤ idx ∧ os = none) ∨
        (idx < np ∧ ∃ s, os = some s ∧ s ≤ i ∧
          collapseAux (decide (0 < idx ∧ ns.getD (idx - 1) 'x' = ' '))
              ((source.drop s).take (i - s)) = (ns.drop idx).take (np - idx) ∧
          stateAfter (decide (0 < idx ∧ ns.getD (idx - 1) 'x' = ' '))
              ((source.drop s).take (i - s)) =
            decide (0 < np ∧ ns.getD (np - 1) 'x' = ' '))) →
      ∃ s e, (spanWalk ns idx (idx + nc.length) rest i np os).1 = some s ∧
        s ≤ e ∧ e ≤ source.length ∧
        ((spanWalk ns idx (idx + nc.length) rest i np os).2.1 = some e ∨
          ((spanWalk ns idx (idx + nc.length) rest i np os).2.1 = none ∧
            e = (spanWalk ns idx (idx + nc.length) rest i np os).2.2)) ∧
        collapseAux (decide (0 < idx ∧ ns.getD (idx - 1) 'x' = ' '))
          ((source.drop s).take (e - s)) = nc := by
  intro rest
  induction rest with
  | nil =>
    intro i np os h1 h0 h4 h3 hos
    have h3n : ([] : List Char) = ns.drop np := h3
    have hnp : ns.length ≤ np := by
      by_contra hlt
      push_neg at hlt
      have hne : ns.drop np ≠ [] := by
        intro hx
        rw [List.drop_eq_nil_iff] at hx
        omega
      exact hne h3n.symm
    rcases hos with ⟨hle, _⟩ | ⟨hgt, s, hs, hsi, hA, _⟩
    · omega
    · have hnpeq : np = idx + nc.length := by omega
      refine ⟨s, i, ?_, hsi, h0, ?_, ?_⟩
      · simp only [spanWalk]
        exact hs
      · right
        exact ⟨rfl, rfl⟩
      · rw [show np - idx = nc.length from by omega, hmatch] at hA
        exact hA
  | cons c rest' ih =>
    intro i np os h1 h0 h4 h3 hos
    have hidrop : source.drop i = c :: rest' := h1.symm
    have hilt : i < source.length := lt_length_of_drop source i c rest' hidrop
    have hrest : rest' = source.drop (i + 1) :=
      (drop_succ_of_drop source i c rest' hidrop).symm
    rw [spanWalk]
    by_cases hskip : isPySpace c = true ∧ 0 < np ∧ ns.getD (np - 1) 'x' = ' '
    · rw [if_pos hskip]
      have hb : decide (0 < np ∧ ns.getD (np - 1) 'x' = ' ') = true :=
        decide_eq_true hskip.2
      have h3' : collapseAux (decide (0 < np ∧ ns.getD (np - 1) 'x' = ' ')) rest' =
          ns.drop np := by
        rw [hb] at h3 ⊢
        rw [show collapseAux true (c :: rest') = collapseAux true rest' from by
          simp [collapseAux, hskip.1]] at h3
        exact h3
      refine ih (i + 1) np os hrest (by omega) h4 h3' ?_
      rcases hos with hL | ⟨hgt, s, hs, hsi, hA, hS⟩
      · exact Or.inl hL
      · refine Or.inr ⟨hgt, s, hs, by omega, ?_, ?_⟩
        · rw [take_shift_succ source s i c rest' hsi hidrop, collapseAux_snoc,
            if_pos hskip.1, hS, hb, if_pos rfl, List.append_nil]
          exact hA
        · rw [take_shift_succ source s i c rest' hsi hidrop, stateAfter_snoc,
            hskip.1, hb]
    · rw [if_neg hskip]
      have hcurval : ∃ d, ns.drop np = d :: collapseAux (isPySpace c) rest' ∧
          (if isPySpace c = true
            then (if decide (0 < np ∧ ns.getD (np - 1) 'x' = ' ') = true
              then ([] : List Char) else [' '])
            else [c]) = [d] ∧
          isPySpace c = decide (0 < np + 1 ∧ ns.getD (np + 1 - 1) 'x' = ' ') := by
        by_cases hc : isPySpace c = true
        · have hcurF : decide (0 < np ∧ ns.getD (np - 1) 'x' = ' ') = false :=
            decide_eq_false (fun h => hskip ⟨hc, h⟩)
          rw [hcurF] at h3
          rw [show collapseAux false (c :: rest') = ' ' :: collapseAux true rest' from by
            simp [collapseAux, hc]] at h3
          refine ⟨' ', ?_, ?_, ?_⟩
          · rw [hc]
            exact h3.symm
          · rw [if_pos hc, hcurF]
            simp
          · have hget : ns.getD np 'x' = ' ' := getD_of_drop ns np ' ' _ h3.symm
            rw [hc]
            symm
            rw [decide_eq_true_iff]
            refine ⟨by omega, ?_⟩
            rw [show np + 1 - 1 = np from by omega, hget]
        · have hc' : isPySpace c = false := by simpa using hc
          rw [show collapseAux (decide (0 < np ∧ ns.getD (np - 1) 'x' = ' '))
              (c :: rest') = c :: collapseAux false rest' from by
            simp [collapseAux, hc']] at h3
          refine ⟨c, ?_, ?_, ?_⟩
          · rw [hc']
            exact h3.symm
          · rw [if_neg hc]
          · have hget : ns.getD np 'x' = c := getD_of_drop ns np c _ h3.symm
            rw [hc']
            symm
            rw [decide_eq_false_iff_not]
            intro hand
            rw [show np + 1 - 1 = np from by omega, hget] at hand
            rw [hand.2] at hc'
            exact absurd hc' (by decide)
      obtain ⟨d, hdnp, happ, hcnew⟩ := hcurval
      have htail : ns.drop (np + 1) = collapseAux (isPySpace c) rest' :=
        drop_succ_of_drop ns np d _ hdnp
      have h3' : collapseAux (decide (0 < np + 1 ∧ ns.getD (np + 1 - 1) 'x' = ' '))
          rest' = ns.drop (np + 1) := by
        rw [← hcnew, htail]
      have hnplt : np < ns.length := lt_length_of_drop ns np d _ hdnp
      by_cases hstop2 : np = idx + nc.length
      · rw [if_pos hstop2]
        rcases hos with ⟨hle, hosn⟩ | ⟨hgt, s, hs, hsi, hA, hS⟩
        · have hidxeq : np = idx := by omega
          have hnc : nc = [] := List.length_eq_zero.mp (by omega)
          refine ⟨i, i, ?_, le_refl i, le_of_lt hilt, Or.inl rfl, ?_⟩
          · rw [hosn]
            show (if np = idx ∧ (none : Option Nat) = none then some i else none) =
              some i
            rw [if_pos ⟨hidxeq, rfl⟩]
          · rw [show i - i = 0 from by omega, hnc]
            rfl
        · refine ⟨s, i, ?_, hsi, le_of_lt hilt, Or.inl rfl, ?_⟩
          · rw [hs]
            show (if np = idx ∧ some s = none then some i else some s) = some s
            rw [if_neg (fun h => Option.noConfusion h.2)]
          · rw [show np - idx = nc.length from by omega, hmatch] at hA
            exact hA
      · rw [if_neg hstop2]
        rcases hos with ⟨hle, hosn⟩ | ⟨hgt, s, hs, hsi, hA, hS⟩
        · by_cases hcap : np = idx
          · subst hcap
            have hos' : (if np = np ∧ os = none then some i else os) = some i :=
              if_pos ⟨rfl, hosn⟩
            rw [hos']
            refine ih (i + 1) (np + 1) (some i) hrest (by omega) (by omega) h3' ?_
            right
            refine ⟨by omega, i, rfl, by omega, ?_, ?_⟩
            · rw [show i + 1 - i = 1 from by omega, hidrop,
                show np + 1 - np = 1 from by omega, hdnp,
                show (c :: rest').take 1 = [c] from rfl,
                show (d :: collapseAux (isPySpace c) rest').take 1 = [d] from rfl]
              rw [show collapseAux (decide (0 < np ∧ ns.getD (np - 1) 'x' = ' '))
                  [c] = (if isPySpace c = true
                    then (if decide (0 < np ∧ ns.getD (np - 1) 'x' = ' ') = true
                      then ([] : List Char) else [' '])
                    else [c]) from by
                by_cases hcc : isPySpace c = true
                · simp [collapseAux, hcc]
                · have hcc' : isPySpace c = false := by simpa using hcc
                  simp [collapseAux, hcc']]
              exact happ
            · rw [show i + 1 - i = 1 from by omega, hidrop,
                show (c :: rest').take 1 = [c] from rfl,
                show stateAfter (decide (0 < np ∧ ns.getD (np - 1) 'x' = ' '))
                  [c] = isPySpace c from rfl]
              exact hcnew
          · have hos' : (if np = idx ∧ os = none then some i else os) = os :=
              if_neg (fun h => hcap h.1)
            rw [hos', hosn]
            exact ih (i + 1) (np + 1) none hrest (by omega) (by omega) h3'
              (Or.inl ⟨by omega, rfl⟩)
        · have hos' : (if np = idx ∧ os = none then some i else os) = os := by
            rw [hs]
            exact if_neg (fun h => absurd h.1 (by omega))
          rw [hos', hs]
          refine ih (i + 1) (np + 1) (some s) hrest (by omega) (by omega) h3' ?_
          right
          refine ⟨by omega, s, rfl, by omega, ?_, ?_⟩
          · rw [take_shift_succ source s i c rest' hsi hidrop, collapseAux_snoc,
              hS, happ,
              take_shift_succ ns idx np d _ (le_of_lt hgt) hdnp, hA]
          · rw [take_shift_succ source s i c rest' hsi hidrop, stateAfter_snoc]
            exact hcnew

theorem collapseWS_ne_nil (c : Char) (r : List Char) : collapseWS (c :: r) ≠ [] := by
  by_cases hc : isPySpace c = true
  · simp [collapseWS, collapseAux, hc]
  · have hc' : isPySpace c = false := by simpa using hc
    simp [collapseWS, collapseAux, hc']

theorem pyFind_nil_needle (hay : List Char) : pyFind hay [] = some 0 := by
  rw [pyFind, List.range_succ_eq_map, List.find?_cons_of_pos _ (by rfl)]

/-- C5 (corrected): whenever `compute_span` reports `found = true` — in
particular whenever the normalized (whitespace-collapsing) fallback pass
succeeds — the returned offsets satisfy `0 ≤ start ≤ end ≤ |source|` and
the original-document slice `source[start:end]` is equivalent to the
citation under whitespace normalization (runs collapsed, ends stripped).
The spec's example `D = "alpha   beta\ngamma"` only exhibits this with an
actual newline character; read with a literal backslash-n the fallback
find fails and `compute_span` returns `(False, -1, -1)`. -/
theorem C5_span_normalized_window (citation source : List Char) (s e : Int)
    (h : compute_span citation source = (true, s, e)) :
    0 ≤ s ∧ s ≤ e ∧ e ≤ (source.length : Int) ∧
    collapseWS (pyStrip (pySlice source s.toNat e.toNat)) =
      collapseWS (pyStrip citation) := by
  rw [compute_span] at h
  by_cases hguard : citation = [] ∨ source = []
  · rw [if_pos hguard] at h
    cases h
  · rw [if_neg hguard] at h
    push_neg at hguard
    obtain ⟨hcne, hsne⟩ := hguard
    cases hfind : pyFind source citation with
    | some idx =>
      rw [hfind] at h
      rw [Prod.mk.injEq, Prod.mk.injEq] at h
      obtain ⟨-, hs, he⟩ := h
      rw [pyFind] at hfind
      have hm : matchesAt source citation idx = true := List.find?_some hfind
      rw [matchesAt, decide_eq_true_iff] at hm
      have hmem : idx ∈ List.range (source.length + 1) :=
        List.mem_of_find?_eq_some hfind
      rw [List.mem_range] at hmem
      have hlen : idx + citation.length ≤ source.length := by
        have hgl := congrArg List.length hm
        rw [List.length_take, List.length_drop] at hgl
        omega
      have hsnat : s.toNat = idx := by
        rw [← hs]
        exact Int.toNat_natCast idx
      have henat : e.toNat = idx + citation.length := by
        rw [← he, show (idx : Int) + (citation.length : Int) =
          ((idx + citation.length : Nat) : Int) from by push_cast; ring]
        exact Int.toNat_natCast _
      refine ⟨?_, ?_, ?_, ?_⟩
      · rw [← hs]
        exact Int.natCast_nonneg idx
      · rw [← hs, ← he]
        omega
      · rw [← he]
        omega
      · rw [hsnat, henat, pySlice,
          show idx + citation.length - idx = citation.length from by omega, hm]
    | none =>
      rw [hfind] at h
      dsimp only at h
      cases hfind2 : pyFind (collapseWS source) (collapseWS (pyStrip citation)) with
      | none =>
        rw [hfind2] at h
        cases h
      | some idx =>
        rw [hfind2] at h
        dsimp only at h
        have hfind2' := hfind2
        rw [pyFind] at hfind2'
        have hm : matchesAt (collapseWS source) (collapseWS (pyStrip citation)) idx =
            true := List.find?_some hfind2'
        rw [matchesAt, decide_eq_true_iff] at hm
        have hmem : idx ∈ List.range ((collapseWS source).length + 1) :=
          List.mem_of_find?_eq_some hfind2'
        rw [List.mem_range] at hmem
        have hlen : idx + (collapseWS (pyStrip citation)).length ≤
            (collapseWS source).length := by
          have hgl := congrArg List.length hm
          rw [List.length_take, List.length_drop] at hgl
          omega
        have hnsne : collapseWS source ≠ [] := by
          cases hsrc : source with
          | nil => exact absurd hsrc hsne
          | cons a r =>
            rw [← hsrc]
            rw [hsrc]
            exact collapseWS_ne_nil a r
        have hidx : idx < (collapseWS source).length := by
          by_cases hncnil : collapseWS (pyStrip citation) = []
          · rw [hncnil, pyFind_nil_needle] at hfind2
            have : idx = 0 := by
              injection hfind2 with hh
              exact hh.symm
            subst this
            cases hns : collapseWS source with
            | nil => exact absurd hns hnsne
            | cons a r => simp [hns]
          · have : 0 < (collapseWS (pyStrip citation)).length :=
              List.length_pos.mpr hncnil
            omega
        have hinit : collapseAux
            (decide (0 < 0 ∧ (collapseWS source).getD (0 - 1) 'x' = ' '))
            source = (collapseWS source).drop 0 := by
          rw [show (decide (0 < 0 ∧ (collapseWS source).getD (0 - 1) 'x' = ' '))
            = false from by simp, List.drop_zero]
          rfl
        obtain ⟨s', e', hw1, hse, hel, hdisj, hcol⟩ :=
          spanWalk_slice source (collapseWS source) (collapseWS (pyStrip citation))
            idx hm hidx hlen source 0 0 none (List.drop_zero source).symm
            (Nat.zero_le _) (Nat.zero_le _) hinit
            (Or.inl ⟨Nat.zero_le _, rfl⟩)
        rw [hw1] at h
        rcases hdisj with hoe | ⟨hoe, he'⟩
        · rw [hoe] at h
          dsimp only at h
          rw [Prod.mk.injEq, Prod.mk.injEq] at h
          obtain ⟨-, hs, he⟩ := h
          refine ⟨?_, ?_, ?_, ?_⟩
          · rw [← hs]
            exact Int.natCast_nonneg s'
          · rw [← hs, ← he]
            exact_mod_cast hse
          · rw [← he]
            exact_mod_cast hel
          · rw [show s.toNat = s' from by rw [← hs]; exact Int.toNat_natCast s',
              show e.toNat = e' from by rw [← he]; exact Int.toNat_natCast e']
            calc collapseWS (pyStrip (pySlice source s' e'))
                = pyStrip (collapseAux
                    (decide (0 < idx ∧ (collapseWS source).getD (idx - 1) 'x' = ' '))
                    (pySlice source s' e')) := (pyStrip_collapseAux _ _).symm
              _ = pyStrip (collapseWS (pyStrip citation)) := by
                  rw [show pySlice source s' e' = (source.drop s').take (e' - s')
                    from rfl, hcol]
              _ = collapseWS (pyStrip citation) := pyStrip_collapse_strip citation
        · rw [hoe] at h
          dsimp only at h
          rw [← he'] at h
          rw [Prod.mk.injEq, Prod.mk.injEq] at h
          obtain ⟨-, hs, he⟩ := h
          refine ⟨?_, ?_, ?_, ?_⟩
          · rw [← hs]
            exact Int.natCast_nonneg s'
          · rw [← hs, ← he]
            exact_mod_cast hse
          · rw [← he]
            exact_mod_cast hel
          · rw [show s.toNat = s' from by rw [← hs]; exact Int.toNat_natCast s',
              show e.toNat = e' from by rw [← he]; exact Int.toNat_natCast e']
            calc collapseWS (pyStrip (pySlice source s' e'))
                = pyStrip (collapseAux
                    (decide (0 < idx ∧ (collapseWS source).getD (idx - 1) 'x' = ' '))
                    (pySlice source s' e')) := (pyStrip_collapseAux _ _).symm
              _ = pyStrip (collapseWS (pyStrip citation)) := by
                  rw [show pySlice source s' e' = (source.drop s').take (e' - s')
                    from rfl, hcol]
              _ = collapseWS (pyStrip citation) := pyStrip_collapse_strip citation

/-- C5 counterexample: reading the spec's `D = "alpha   beta\ngamma"` with a
literal backslash-n (two characters), the exact pass fails and the
normalized source `"alpha beta\ngamma"` (backslash-n intact, since neither
character is whitespace) does not contain `"alpha beta gamma"`, so
`compute_span` returns `(False, -1, -1)` rather than `found = true`. -/
theorem C5_counterexample :
    compute_span "alpha beta gamma".toList "alpha   beta\\ngamma".toList =
      (false, -1, -1) := by
  decide

/-- Witness for `C5_span_normalized_window`: with an actual newline,
`compute_span("alpha beta gamma", "alpha   beta\ngamma")` resolves via the
normalized pass to `(True, 0, 18)` and the slice normalizes back to the
normalized citation. -/
theorem C5_witness :
    compute_span "alpha beta gamma".toList "alpha   beta\ngamma".toList =
      (true, 0, 18) ∧
    (0 ≤ (0 : Int) ∧ (0 : Int) ≤ 18 ∧
      (18 : Int) ≤ ("alpha   beta\ngamma".toList.length : Int) ∧
      collapseWS (pyStrip (pySlice "alpha   beta\ngamma".toList
          (0 : Int).toNat (18 : Int).toNat)) =
        collapseWS (pyStrip "alpha beta gamma".toList)) :=
  ⟨by decide, C5_span_normalized_window "alpha beta gamma".toList
    "alpha   beta\ngamma".toList 0 18 (by decide)⟩

theorem hwrite_length (h : Heap) (a : Nat) (o : PyObj) :
    (hwrite h a o).length = h.length := List.length_set h a o

theorem hread_hwrite_ne (h : Heap) (a b : Nat) (o : PyObj) (hab : a ≠ b) :
    hread (hwrite h b o) a = hread h a := by
  rw [hread, hwrite, hread, List.getD_eq_getElem?_getD, List.getD_eq_getElem?_getD,
    List.getElem?_set_ne (fun hh => hab hh.symm)]

theorem hread_hwrite_self (h : Heap) (a : Nat) (o : PyObj) (ha : a < h.length) :
    hread (hwrite h a o) a = o := by
  rw [hread, hwrite, List.getD_eq_getElem?_getD, List.getElem?_set_self ha]
  rfl

theorem hread_append_lt (h l : Heap) (a : Nat) (ha : a < h.length) :
    hread (h ++ l) a = hread h a := by
  rw [hread, hread, List.getD_eq_getElem?_getD, List.getD_eq_getElem?_getD,
    List.getElem?_append_left ha]

theorem hread_append_add (h l : Heap) (k : Nat) :
    hread (h ++ l) (h.length + k) = l.getD k (PyObj.dict []) := by
  rw [hread, List.getD_eq_getElem?_getD, List.getElem?_append_right (by omega),
    show h.length + k - h.length = k from by omega, List.getD_eq_getElem?_getD]

theorem hread_append_self (h : Heap) (o : PyObj) : hread (h ++ [o]) h.length = o := by
  have h0 := hread_append_add h [o] 0
  rw [Nat.add_zero] at h0
  rw [h0]
  rfl

theorem readDictList_hwrite_ne (h : Heap) (a b : Nat) (o : PyObj) (hab : a ≠ b) :
    readDictList (hwrite h b o) a = readDictList h a := by
  rw [readDictList, readDictList, hread_hwrite_ne h a b o hab]

theorem readDictList_append (h l : Heap) (a : Nat) (ha : a < h.length) :
    readDictList (h ++ l) a = readDictList h a := by
  rw [readDictList, readDictList, hread_append_lt h l a ha]

theorem readDictList_hwrite_self (h : Heap) (a : Nat) (l : List Nat)
    (ha : a < h.length) :
    readDictList (hwrite h a (PyObj.dictList l)) a = l := by
  rw [readDictList, hread_hwrite_self h a _ ha]

theorem vcHeapLoop_frame (src : List Char) (eqAddr : Nat) (th : ℚ)
    (vAddr rAddr bAddr : Nat) (hvr : vAddr ≠ rAddr) (hvb : vAddr ≠ bAddr)
    (hrb : rAddr ≠ bAddr) :
    ∀ (ps : List Nat) (h : Heap),
      vAddr < h.length → rAddr < h.length → bAddr < h.length →
      h.length ≤ (vcHeapLoop src eqAddr th vAddr rAddr bAddr ps h).length ∧
      (∀ a, a < h.length → a ≠ vAddr → a ≠ rAddr → a ≠ bAddr →
        hread (vcHeapLoop src eqAddr th vAddr rAddr bAddr ps h) a = hread h a) ∧
      (∀ x, x ∈ readDictList (vcHeapLoop src eqAddr th vAddr rAddr bAddr ps h) vAddr →
        x ∈ readDictList h vAddr ∨ h.length ≤ x) ∧
      (∀ x, x ∈ readDictList (vcHeapLoop src eqAddr th vAddr rAddr bAddr ps h) rAddr →
        x ∈ readDictList h rAddr ∨ h.length ≤ x) := by
  intro ps
  induction ps with
  | nil =>
    intro h hv hr hb
    exact ⟨le_refl _, fun a _ _ _ _ => rfl, fun x hx => Or.inl hx,
      fun x hx => Or.inl hx⟩
  | cons p rest ih =>
    intro h hv hr hb
    rw [vcHeapLoop]
    dsimp only [halloc]
    have hrej : ∀ d : PyDict,
        h.length ≤ (vcHeapLoop src eqAddr th vAddr rAddr bAddr rest
          (hwrite (h ++ [PyObj.dict d]) rAddr
            (PyObj.dictList (readDictList (h ++ [PyObj.dict d]) rAddr ++
              [h.length])))).length ∧
        (∀ a, a < h.length → a ≠ vAddr → a ≠ rAddr → a ≠ bAddr →
          hread (vcHeapLoop src eqAddr th vAddr rAddr bAddr rest
            (hwrite (h ++ [PyObj.dict d]) rAddr
              (PyObj.dictList (readDictList (h ++ [PyObj.dict d]) rAddr ++
                [h.length])))) a = hread h a) ∧
        (∀ x, x ∈ readDictList (vcHeapLoop src eqAddr th vAddr rAddr bAddr rest
            (hwrite (h ++ [PyObj.dict d]) rAddr
              (PyObj.dictList (readDictList (h ++ [PyObj.dict d]) rAddr ++
                [h.length])))) vAddr →
          x ∈ readDictList h vAddr ∨ h.length ≤ x) ∧
        (∀ x, x ∈ readDictList (vcHeapLoop src eqAddr th vAddr rAddr bAddr rest
            (hwrite (h ++ [PyObj.dict d]) rAddr
              (PyObj.dictList (readDictList (h ++ [PyObj.dict d]) rAddr ++
                [h.length])))) rAddr →
          x ∈ readDictList h rAddr ∨ h.length ≤ x) := by
      intro d
      have hlA : (h ++ [PyObj.dict d]).length = h.length + 1 := by simp
      have hl2 : (hwrite (h ++ [PyObj.dict d]) rAddr
          (PyObj.dictList (readDictList (h ++ [PyObj.dict d]) rAddr ++
            [h.length]))).length = h.length + 1 := by
        rw [hwrite_length, hlA]
      obtain ⟨ihlen, ihfr, ihv, ihr⟩ := ih
        (hwrite (h ++ [PyObj.dict d]) rAddr
          (PyObj.dictList (readDictList (h ++ [PyObj.dict d]) rAddr ++ [h.length])))
        (by omega) (by omega) (by omega)
      refine ⟨by omega, ?_, ?_, ?_⟩
      · intro a ha hav har hab
        rw [ihfr a (by omega) hav har hab,
          hread_hwrite_ne _ a rAddr _ har, hread_append_lt h _ a ha]
      · intro x hx
        rcases ihv x hx with hmem | hge
        · rw [readDictList_hwrite_ne _ vAddr rAddr _ hvr,
            readDictList_append h _ vAddr hv] at hmem
          exact Or.inl hmem
        · exact Or.inr (by omega)
      · intro x hx
        rcases ihr x hx with hmem | hge
        · rw [readDictList_hwrite_self _ rAddr _ (by omega),
            readDictList_append h _ rAddr hr] at hmem
          rcases List.mem_append.mp hmem with hmem2 | hmem2
          · exact Or.inl hmem2
          · rw [List.mem_singleton] at hmem2
            exact Or.inr (by omega)
        · exact Or.inr (by omega)
    by_cases hnull : pyGet (readDict h p) "citation".toList (PyVal.str []) = PyVal.null
    · rw [if_pos hnull]
      exact hrej _
    · rw [if_neg hnull]
      by_cases hspan : (compute_span
          (asStr (pyGet (readDict h p) "citation".toList (PyVal.str []))) src).1 = false
      · rw [if_pos hspan]
        exact hrej _
      · rw [if_neg hspan]
        by_cases hdup : (is_duplicate_question
            (asStr (pyGet (readDict h p) "query".toList (PyVal.str [])))
            (readStrList h eqAddr ++ readStrList h bAddr) th).1 = true
        · rw [if_pos hdup]
          exact hrej _
        · rw [if_neg hdup]
          have hlA : (h ++ [PyObj.dict (readDict h p)]).length = h.length + 1 := by
            simp
          have hl2 : (hwrite (h ++ [PyObj.dict (readDict h p)]) h.length
              (PyObj.dict (readDict (h ++ [PyObj.dict (readDict h p)]) h.length ++
                [("start_index".toList, PyVal.int (compute_span
                  (asStr (pyGet (readDict h p) "citation".toList (PyVal.str [])))
                  src).2.1)]))).length = h.length + 1 := by
            rw [hwrite_length, hlA]
          generalize hH2 : hwrite (h ++ [PyObj.dict (readDict h p)]) h.length
              (PyObj.dict (readDict (h ++ [PyObj.dict (readDict h p)]) h.length ++
                [("start_index".toList, PyVal.int (compute_span
                  (asStr (pyGet (readDict h p) "citation".toList (PyVal.str [])))
                  src).2.1)])) = H2
          rw [hH2] at hl2
          have hl3 : (hwrite H2 h.length (PyObj.dict (readDict H2 h.length ++
              [("end_index".toList, PyVal.int (compute_span
                (asStr (pyGet (readDict h p) "citation".toList (PyVal.str [])))
                src).2.2)]))).length = h.length + 1 := by
            rw [hwrite_length, hl2]
          generalize hH3 : hwrite H2 h.length (PyObj.dict (readDict H2 h.length ++
              [("end_index".toList, PyVal.int (compute_span
                (asStr (pyGet (readDict h p) "citation".toList (PyVal.str [])))
                src).2.2)])) = H3
          rw [hH3] at hl3
          have hl4 : (hwrite H3 vAddr (PyObj.dictList
              (readDictList H3 vAddr ++ [h.length]))).length = h.length + 1 := by
            rw [hwrite_length, hl3]
          generalize hH4 : hwrite H3 vAddr (PyObj.dictList
              (readDictList H3 vAddr ++ [h.length])) = H4
          rw [hH4] at hl4
          have hl5 : (hwrite H4 bAddr (PyObj.strList (readStrList H4 bAddr ++
              [asStr (pyGet (readDict h p) "query".toList (PyVal.str []))]))).length =
              h.length + 1 := by
            rw [hwrite_length, hl4]
          generalize hH5 : hwrite H4 bAddr (PyObj.strList (readStrList H4 bAddr ++
              [asStr (pyGet (readDict h p) "query".toList (PyVal.str []))])) = H5
          rw [hH5] at hl5
          obtain ⟨ihlen, ihfr, ihv, ihr⟩ := ih H5 (by omega) (by omega) (by omega)
          have hfr5 : ∀ a, a < h.length → a ≠ vAddr → a ≠ rAddr → a ≠ bAddr →
              hread H5 a = hread h a := by
            intro a ha hav har hab
            rw [← hH5, hread_hwrite_ne _ a bAddr _ hab, ← hH4,
              hread_hwrite_ne _ a vAddr _ hav, ← hH3,
              hread_hwrite_ne _ a h.length _ (by omega), ← hH2,
              hread_hwrite_ne _ a h.length _ (by omega),
              hread_append_lt h _ a ha]
          have hv5 : readDictList H5 vAddr = readDictList h vAddr ++ [h.length] := by
            rw [← hH5, readDictList_hwrite_ne _ vAddr bAddr _ hvb, ← hH4,
              readDictList_hwrite_self _ vAddr _ (by omega), ← hH3,
              readDictList_hwrite_ne _ vAddr h.length _ (by omega), ← hH2,
              readDictList_hwrite_ne _ vAddr h.length _ (by omega),
              readDictList_append h _ vAddr hv]
          have hr5 : readDictList H5 rAddr = readDictList h rAddr := by
            rw [← hH5, readDictList_hwrite_ne _ rAddr bAddr _ hrb, ← hH4,
              readDictList_hwrite_ne _ rAddr vAddr _ (fun hh => hvr hh.symm), ← hH3,
              readDictList_hwrite_ne _ rAddr h.length _ (by omega), ← hH2,
              readDictList_hwrite_ne _ rAddr h.length _ (by omega),
              readDictList_append h _ rAddr hr]
          refine ⟨by omega, ?_, ?_, ?_⟩
          · intro a ha hav har hab
            rw [ihfr a (by omega) hav har hab, hfr5 a ha hav har hab]
          · intro x hx
            rcases ihv x hx with hmem | hge
            · rw [hv5] at hmem
              rcases List.mem_append.mp hmem with hmem2 | hmem2
              · exact Or.inl hmem2
              · rw [List.mem_singleton] at hmem2
                exact Or.inr (by omega)
            · exact Or.inr (by omega)
          · intro x hx
            rcases ihr x hx with hmem | hge
            · rw [hr5] at hmem
              exact Or.inl hmem
            · exact Or.inr (by omega)

/-- C9 (confirmed): `validate_citations` never mutates the caller's
objects.  At heap level, every address allocated before the call — the
`pairs` list object, every pair dict it references, and the caller's
`existing_questions` list — reads identically after the run, and every
entry of the returned `valid` and `rejected` list objects is a freshly
allocated (annotated) copy, so the batch-local extension of the seen
questions is not visible in the caller's history. -/
theorem C9_frame_no_mutation (h : Heap) (pairsAddr : Nat) (src : List Char)
    (eqAddr : Nat) (th : ℚ) :
    (∀ a, a < h.length →
      hread (validate_citations_heap h pairsAddr src eqAddr th).1 a = hread h a) ∧
    (∀ x, x ∈ readDictList (validate_citations_heap h pairsAddr src eqAddr th).1
        (validate_citations_heap h pairsAddr src eqAddr th).2.1 → h.length ≤ x) ∧
    (∀ x, x ∈ readDictList (validate_citations_heap h pairsAddr src eqAddr th).1
        (validate_citations_heap h pairsAddr src eqAddr th).2.2 → h.length ≤ x) := by
  rw [validate_citations_heap]
  dsimp only [halloc]
  have e1 : (h ++ [PyObj.dictList []]).length = h.length + 1 := by simp
  have e2 : ((h ++ [PyObj.dictList []]) ++ [PyObj.dictList []]).length =
      h.length + 2 := by simp
  have e3 : (((h ++ [PyObj.dictList []]) ++ [PyObj.dictList []]) ++
      [PyObj.strList []]).length = h.length + 3 := by simp
  rw [e1, e2]
  obtain ⟨hlen, hfr, hvp, hrp⟩ := vcHeapLoop_frame src eqAddr th
    h.length (h.length + 1) (h.length + 2) (by omega) (by omega) (by omega)
    (readDictList (((h ++ [PyObj.dictList []]) ++ [PyObj.dictList []]) ++
      [PyObj.strList []]) pairsAddr)
    (((h ++ [PyObj.dictList []]) ++ [PyObj.dictList []]) ++ [PyObj.strList []])
    (by omega) (by omega) (by omega)
  have hreadA : readDictList (((h ++ [PyObj.dictList []]) ++ [PyObj.dictList []]) ++
      [PyObj.strList []]) h.length = ([] : List Nat) := by
    rw [readDictList, hread_append_lt _ [PyObj.strList []] h.length (by omega),
      hread_append_lt _ [PyObj.dictList []] h.length (by omega),
      hread_append_self h (PyObj.dictList [])]
  have hreadB : readDictList (((h ++ [PyObj.dictList []]) ++ [PyObj.dictList []]) ++
      [PyObj.strList []]) (h.length + 1) = ([] : List Nat) := by
    rw [readDictList, hread_append_lt _ [PyObj.strList []] (h.length + 1) (by omega),
      ← e1, hread_append_self (h ++ [PyObj.dictList []]) (PyObj.dictList [])]
  refine ⟨?_, ?_, ?_⟩
  · intro a ha
    rw [hfr a (by omega) (by omega) (by omega) (by omega),
      hread_append_lt _ [PyObj.strList []] a (by omega),
      hread_append_lt _ [PyObj.dictList []] a (by omega),
      hread_append_lt h [PyObj.dictList []] a ha]
  · intro x hx
    rcases hvp x hx with hmem | hge
    · rw [hreadA] at hmem
      exact absurd hmem (List.not_mem_nil x)
    · rw [e3] at hge
      omega
  · intro x hx
    rcases hrp x hx with hmem | hge
    · rw [hreadB] at hmem
      exact absurd hmem (List.not_mem_nil x)
    · rw [e3] at hge
      omega

/-- Witness for `C9_frame_no_mutation`: a heap holding a pairs list `[1]`,
one pair dict and an empty history list; after the run the pair dict at
address 1 is unchanged and the accepted copy placed in `valid` (address 6)
is fresh. -/
theorem C9_witness :
    hread (validate_citations_heap [PyObj.dictList [1],
        PyObj.dict [("query".toList, PyVal.str "q".toList),
          ("citation".toList, PyVal.str "a".toList)],
        PyObj.strList []] 0 "a".toList 2 (mkRat 95 100)).1 1 =
      hread [PyObj.dictList [1],
        PyObj.dict [("query".toList, PyVal.str "q".toList),
          ("citation".toList, PyVal.str "a".toList)],
        PyObj.strList []] 1 ∧
    ([PyObj.dictList [1],
        PyObj.dict [("query".toList, PyVal.str "q".toList),
          ("citation".toList, PyVal.str "a".toList)],
        PyObj.strList []] : Heap).length ≤ 6 :=
  ⟨(C9_frame_no_mutation [PyObj.dictList [1],
      PyObj.dict [("query".toList, PyVal.str "q".toList),
        ("citation".toList, PyVal.str "a".toList)],
      PyObj.strList []] 0 "a".toList 2 (mkRat 95 100)).1 1 (by decide),
    (C9_frame_no_mutation [PyObj.dictList [1],
      PyObj.dict [("query".toList, PyVal.str "q".toList),
        ("citation".toList, PyVal.str "a".toList)],
      PyObj.strList []] 0 "a".toList 2 (mkRat 95 100)).2.1 6 (by decide)⟩
